import Mathlib

/-!
Verification of the task dependency graph, decomposition/merge workflow and
schedule-generation services of the ai-task-scheduler repository.

The definitions below are a shallow embedding of the Python services:

* `app/services/task_dependency_service.py` (`TaskDependencyService`)
* `app/services/task_workflow_service.py` (`TaskWorkflowService`)
* `app/services/schedule_service.py` (`ScheduleService`)
* `app/clients/claude_client.py` (`ClaudeClient`) and the error mapping of
  `app/routers/workflow/schedule.py`

Modelling conventions:

* `Decimal` values become `ℚ` (exact rationals); Python `int(...)` on a
  non-negative product is truncation, embedded as `truncQ`.
* `datetime` values become integers (a day/minute index); the services only
  add day offsets and compare, which the integer model reflects.
* The SQLAlchemy session becomes an explicit `Session` record holding the
  committed database and the current (uncommitted) working state.
  `session.add`/`flush` mutate only `current`; `session.commit` copies
  `current` into `committed`; a raised exception aborts the call, so the
  observable state after a failed call is the `committed` component at the
  moment the exception was raised.
* Python's unbounded recursion in `_dfs_check_cycle` is embedded with an
  explicit fuel parameter; `none` marks fuel exhaustion, and the fuel actually
  supplied (`dfsFuel`) is proved sufficient.
* Response-object assembly, log messages and the free-text `note`/`reason`
  fields are omitted: no claim mentions them.
-/

deriving instance DecidableEq for Except

namespace App

/-- Embedding of the repository's task rows: only the fields the claims
exercise are modelled (see `app/models.py`, class `Task`). -/
structure Task where
  id : Nat
  name : String
  projectId : Option Nat
  genreId : Option Nat
  status : String
  estimatedHours : Option ℚ
  parentTaskId : Option Nat
  priority : String
  wantLevel : String
  deadline : Option Int
  deriving DecidableEq, Repr

/-- Embedding of `app/models.py`, class `TimeEntry` (the `note` text is
omitted). -/
structure TimeEntry where
  taskId : Nat
  startTime : Int
  endTime : Option Int
  durationMinutes : Option Int
  deriving DecidableEq, Repr

/-- Embedding of `app/models.py`, class `Schedule`. -/
structure ScheduleRow where
  taskId : Nat
  scheduledDate : Int
  startTime : Option Int
  endTime : Option Int
  allocatedHours : ℚ
  isGeneratedByAi : Bool
  status : String
  deriving DecidableEq, Repr

/-- A dependency edge `(task_id, depends_on_task_id)` of the
`task_dependencies` table. -/
abbrev Edge := Nat × Nat

/-- The relational state the services read and write. -/
structure DB where
  tasks : List Task
  timeEntries : List TimeEntry
  schedules : List ScheduleRow
  deps : List Edge
  deriving DecidableEq, Repr

/-- A SQLAlchemy session: `committed` is what the database holds, `current`
additionally contains the pending (added / flushed but not yet committed)
changes of the ongoing transaction. -/
structure Session where
  committed : DB
  current : DB
  deriving DecidableEq, Repr

/-- Commit the ongoing transaction (`await session.commit()`). -/
def Session.commitNow (s : Session) : Session :=
  { committed := s.current, current := s.current }

/-- The service-level exception taxonomy raised by the workflow services:
`NotFoundException`, `ValidationException` and its subclass
`DependencyCycleException` (see `app/exceptions.py`). -/
inductive WorkflowError where
  | notFound
  | validation
  | dependencyCycle
  deriving DecidableEq, Repr

/-- Embedding of `app/schemas/workflow_requests.py`, class `SubtaskInput`.
`dependsOnIndices` keeps Python's `int` type (`ℤ`) because the service
explicitly checks for negative indices. -/
structure SubtaskInput where
  name : String
  estimatedHours : Option ℚ := none
  allocatedHours : Option ℚ := none
  genreId : Option Nat := none
  priority : String := "中"
  deadline : Option Int := none
  dependsOnIndices : List Int := []
  deriving DecidableEq, Repr

/-- Embedding of `app/schemas/workflow_requests.py`, class `TaskInput`. -/
structure TaskInput where
  name : String
  genreId : Option Nat := none
  estimatedHours : Option ℚ := none
  priority : String := "中"
  wantLevel : String := "中"
  deadline : Option Int := none
  deriving DecidableEq, Repr

/- ===== Dependency graph service (`task_dependency_service.py`) ===== -/

/-- `TaskDependencyService._get_all_dependencies`: the direct dependencies of
`n` (ids `n` depends on). -/
def succs (edges : List Edge) (n : Nat) : List Nat :=
  (edges.filter (fun e => e.1 == n)).map (fun e => e.2)

/-- `TaskDependencyService._get_all_blocking`: the ids directly blocked by
`n`. -/
def blocking (edges : List Edge) (n : Nat) : List Nat :=
  (edges.filter (fun e => e.2 == n)).map (fun e => e.1)

/-- All endpoints mentioned by the edge list (used to bound the DFS fuel). -/
def nodes (edges : List Edge) : List Nat :=
  edges.flatMap (fun e => [e.1, e.2])

/-- Reflexive-transitive reachability along `depends_on` edges: `Reach edges a
b` holds when `a` transitively depends on `b` (or `a = b`). -/
inductive Reach (edges : List Edge) : Nat → Nat → Prop where
  | refl (a : Nat) : Reach edges a a
  | step {a b c : Nat} : (a, b) ∈ edges → Reach edges b c → Reach edges a c

/-- Reachability along at least one edge. -/
def ReachPlus (edges : List Edge) (a c : Nat) : Prop :=
  ∃ b, (a, b) ∈ edges ∧ Reach edges b c

/-- The central invariant of the dependency graph: no node lies on a
non-empty cycle. -/
def Acyclic (edges : List Edge) : Prop :=
  ∀ a, ¬ ReachPlus edges a a

/-- The `for dep_id in dependencies` loop inside `_dfs_check_cycle`,
parameterised by the recursive call `f` (applied to the dependency id, the
visited set at that point and the recursion stack). -/
def dfsLoopF (f : Nat → List Nat → List Nat → Option (Bool × List Nat)) :
    List Nat → List Nat → List Nat → Option (Bool × List Nat)
  | [], visited, _ => some (false, visited)
  | d :: rest, visited, stack =>
    if d ∈ stack then some (true, visited)
    else
      match f d visited stack with
      | none => none
      | some (true, v) => some (true, v)
      | some (false, v) => dfsLoopF f rest v stack

/-- Embedding of `TaskDependencyService._dfs_check_cycle`: depth-first search
from `current` for `target`, with the `visited` set threaded through sibling
calls and the `recursion_stack` holding the ancestors of `current`.  `fuel`
bounds the recursion depth (Python recursion is unbounded; `dfsFuel` below is
proved sufficient), `none` meaning the fuel ran out. -/
def dfsCheckCycle (edges : List Edge) :
    Nat → Nat → Nat → List Nat → List Nat → Option (Bool × List Nat)
  | 0, _, _, _, _ => none
  | fuel + 1, current, target, visited, stack =>
    if current = target then some (true, visited)
    else if current ∈ visited then some (false, visited)
    else
      dfsLoopF (fun d vis stk => dfsCheckCycle edges fuel d target vis stk)
        (succs edges current) (current :: visited) (current :: stack)

/-- Fuel that always suffices for `dfsCheckCycle` (proved in
`dfsCheckCycle_ne_none`). -/
def dfsFuel (edges : List Edge) : Nat := (nodes edges).length + 1

/-- Number of graph nodes not yet visited; the measure showing the DFS fuel
suffices. -/
def unvisited (edges : List Edge) (vis : List Nat) : Nat :=
  ((nodes edges).filter (fun n => decide (¬ n ∈ vis))).length

/-- Embedding of `TaskDependencyService.check_cycle`: for each candidate
dependency, search from it for `taskId` and raise `DependencyCycleException`
when found. -/
def checkCycle (edges : List Edge) (taskId : Nat) :
    List Nat → Option (Except WorkflowError Unit)
  | [] => some (.ok ())
  | d :: ds =>
    match dfsCheckCycle edges (dfsFuel edges) d taskId [] [] with
    | none => none
    | some (true, _) => some (.error .dependencyCycle)
    | some (false, _) => checkCycle edges taskId ds

/-- `_get_task_by_id` / `_validate_task_exists`: fetch a task row or raise
`NotFoundException`. -/
def getTaskById (db : DB) (id : Nat) : Except WorkflowError Task :=
  match db.tasks.find? (fun t => t.id == id) with
  | some t => .ok t
  | none => .error .notFound

/-- Embedding of `TaskDependencyService.add_dependency`: self-reference
check, existence checks, cycle check, then insert the edge and commit.  All
raises happen before the session is touched, so an error leaves the session
exactly as passed in. -/
def addDependencySession (s : Session) (taskId dependsOnTaskId : Nat) :
    Option (Except WorkflowError Session) :=
  if taskId = dependsOnTaskId then some (.error .validation)
  else
    match getTaskById s.current taskId with
    | .error e => some (.error e)
    | .ok _ =>
      match getTaskById s.current dependsOnTaskId with
      | .error e => some (.error e)
      | .ok _ =>
        match checkCycle s.current.deps taskId [dependsOnTaskId] with
        | none => none
        | some (.error e) => some (.error e)
        | some (.ok ()) =>
          let cur := { s.current with
            deps := s.current.deps ++ [(taskId, dependsOnTaskId)] }
          some (.ok (Session.commitNow { s with current := cur }))

/-- Embedding of `TaskDependencyService.transfer_dependencies`: incoming
edges are copied to every subtask, outgoing edges only to the last subtask
when `mode = "to_last"`.  Returns the new state and the created-edge count. -/
def transferDependencies (db : DB) (fromTaskId : Nat) (toTaskIds : List Nat)
    (mode : String) : DB × Nat :=
  let incoming := succs db.deps fromTaskId
  let outgoing := blocking db.deps fromTaskId
  let newIncoming := incoming.flatMap (fun depId =>
    toTaskIds.map (fun toId => (toId, depId)))
  let targetTasks := if mode = "to_last" then toTaskIds.getLast?.toList
    else toTaskIds
  let newOutgoing := outgoing.flatMap (fun depId =>
    targetTasks.map (fun toId => (depId, toId)))
  ({ db with deps := db.deps ++ newIncoming ++ newOutgoing },
    newIncoming.length + newOutgoing.length)

/-- Embedding of `TaskDependencyService.merge_dependencies`: union the
incoming and outgoing neighbours of all source tasks (a Python `set`,
modelled as a deduplicated list), drop references to the target and to the
sources themselves, then add edges from/to the target. -/
def mergeDependencies (db : DB) (fromTaskIds : List Nat) (toTaskId : Nat) :
    DB × Nat :=
  let allDependsOn :=
    (fromTaskIds.flatMap (fun id => succs db.deps id)).dedup.filter
      (fun x => !(x == toTaskId) && !(fromTaskIds.contains x))
  let allBlocking :=
    (fromTaskIds.flatMap (fun id => blocking db.deps id)).dedup.filter
      (fun x => !(x == toTaskId) && !(fromTaskIds.contains x))
  let newIncoming := allDependsOn.map (fun depId => (toTaskId, depId))
  let newOutgoing := allBlocking.map (fun depId => (depId, toTaskId))
  ({ db with deps := db.deps ++ newIncoming ++ newOutgoing },
    allDependsOn.length + allBlocking.length)

/- ===== Workflow service (`task_workflow_service.py`) ===== -/

/-- Fresh primary key for a newly flushed task row. -/
def freshTaskId (db : DB) : Nat :=
  (db.tasks.map (fun t => t.id)).foldr max 0 + 1

/-- Python truthiness of `a or b` for optional integer ids (`None` and `0`
are falsy). -/
def orFalsyNat (a b : Option Nat) : Option Nat :=
  match a with
  | some 0 => b
  | none => b
  | some g => some g

/-- Python truthiness of `a or b` for optional datetimes (only `None` is
falsy). -/
def orElseOpt (a b : Option Int) : Option Int :=
  match a with
  | some d => some d
  | none => b

/-- Embedding of `TaskWorkflowService._create_subtasks`: one new `todo` task
per spec, inheriting `project_id`, `genre_id` and `deadline` from the parent
when the spec omits them (Python `or`, so a falsy `genre_id` also falls back);
ids are assigned consecutively at flush time.  The `decomposition_level`
column is filled by a database trigger and not modelled. -/
def createSubtasks (parent : Task) (subtasks : List SubtaskInput)
    (startId : Nat) : List Task :=
  subtasks.enum.map (fun p =>
    { id := startId + p.1
      name := p.2.name
      projectId := parent.projectId
      genreId := orFalsyNat p.2.genreId parent.genreId
      status := "todo"
      estimatedHours := p.2.estimatedHours
      parentTaskId := some parent.id
      priority := p.2.priority
      wantLevel := "中"
      deadline := orElseOpt p.2.deadline parent.deadline })

/-- Contribution of one subtask to the normalisation total in
`_calculate_allocation_proportions`: a manual `allocated_hours` override is
used directly; otherwise the subtask's `estimated_hours` when the auto group
has a positive estimate total, else an equal share `1 / autoCount` of one
unit spread over the auto group. -/
def rawValue (autoCount : Nat) (autoTotal : ℚ) (s : SubtaskInput) : ℚ :=
  match s.allocatedHours with
  | some v => v
  | none => if 0 < autoTotal then s.estimatedHours.getD 0 else 1 / autoCount

/-- Embedding of `TaskWorkflowService._calculate_allocation_proportions`.
Raises `ValidationException` on a negative (hence truthy) `allocated_hours`
or `estimated_hours`; otherwise normalises the per-subtask contributions and
falls back to an equal split when the total is zero. -/
def calcAllocationProportions (subtasks : List SubtaskInput) :
    Except WorkflowError (List ℚ) :=
  if subtasks.any (fun s =>
      decide (s.allocatedHours.getD 0 < 0) || decide (s.estimatedHours.getD 0 < 0)) then
    .error .validation
  else
    let autos := subtasks.filter (fun s => s.allocatedHours == none)
    let autoTotal := (autos.map (fun s => s.estimatedHours.getD 0)).sum
    let raw := subtasks.map (rawValue autos.length autoTotal)
    let total := raw.sum
    if total = 0 then
      .ok (subtasks.map (fun _ => 1 / (subtasks.length : ℚ)))
    else
      .ok (raw.map (fun v => v / total))

/-- Python `int(q)` for the non-negative and negative case alike: truncation
towards zero. -/
def truncQ (q : ℚ) : Int :=
  if 0 ≤ q then ⌊q⌋ else -⌊-q⌋

/-- Embedding of `TaskWorkflowService._allocate_time_entries`: sum the
parent's completed entries, then create one aggregated entry of
`int(total_minutes * proportion)` minutes per subtask, spanning the parent's
earliest start and latest end; zero-minute allocations are skipped.  Returns
the new state, entries created and minutes allocated. -/
def allocateTimeEntries (db : DB) (parentTaskId : Nat) (created : List Task)
    (proportions : List ℚ) : DB × Nat × Int :=
  let parentEntries := db.timeEntries.filter (fun e =>
    e.taskId == parentTaskId && e.endTime.isSome)
  match parentEntries with
  | [] => (db, 0, 0)
  | e₀ :: _ =>
    let totalMinutes : Int :=
      (parentEntries.map (fun e => e.durationMinutes.getD 0)).sum
    if totalMinutes = 0 then (db, 0, 0)
    else
      let earliestStart := (parentEntries.map (fun e => e.startTime)).foldr
        min e₀.startTime
      let latestEnd := (parentEntries.filterMap (fun e => e.endTime)).foldr
        max (e₀.endTime.getD 0)
      let newEntries := (created.zip proportions).filterMap (fun sp =>
        let allocatedMinutes := truncQ ((totalMinutes : ℚ) * sp.2)
        if 0 < allocatedMinutes then
          some { taskId := sp.1.id
                 startTime := earliestStart
                 endTime := some latestEnd
                 durationMinutes := some allocatedMinutes }
        else none)
      ({ db with timeEntries := db.timeEntries ++ newEntries },
        newEntries.length,
        (newEntries.map (fun e => e.durationMinutes.getD 0)).sum)

/-- Embedding of `TaskWorkflowService._allocate_schedules`: for each parent
schedule block and each subtask, create a proportional block with the status
reset to `scheduled`, skipping allocations below 0.01 hours. -/
def allocateSchedules (db : DB) (parentTaskId : Nat) (created : List Task)
    (proportions : List ℚ) : DB × Nat × ℚ :=
  let parentSchedules := db.schedules.filter (fun r => r.taskId == parentTaskId)
  match parentSchedules with
  | [] => (db, 0, 0)
  | _ :: _ =>
    let newRows := parentSchedules.flatMap (fun ps =>
      (created.zip proportions).filterMap (fun sp =>
        let allocatedHours := ps.allocatedHours * sp.2
        if allocatedHours < 1 / 100 then none
        else
          some { taskId := sp.1.id
                 scheduledDate := ps.scheduledDate
                 startTime := ps.startTime
                 endTime := ps.endTime
                 allocatedHours := allocatedHours
                 isGeneratedByAi := ps.isGeneratedByAi
                 status := "scheduled" }))
    ({ db with schedules := db.schedules ++ newRows },
      newRows.length, (newRows.map (fun r => r.allocatedHours)).sum)

/-- The `for dep_index in subtask_input.depends_on_indices` loop of
`breakdown_task` step 4 for one subtask `i`: range-check the index, run the
explicit cycle check, then call `add_dependency` (which itself re-checks and
commits).  An error carries the session as it stood when the exception was
raised. -/
def subtaskDepsInner (createdIds : List Nat) (i : Nat) :
    Session → List Int → Option (Except (WorkflowError × Session) Session)
  | s, [] => some (.ok s)
  | s, depIndex :: rest =>
    if depIndex < 0 ∨ (createdIds.length : Int) ≤ depIndex then
      some (.error (.validation, s))
    else
      match checkCycle s.current.deps (createdIds.getD i 0)
          [createdIds.getD depIndex.toNat 0] with
      | none => none
      | some (.error e) => some (.error (e, s))
      | some (.ok ()) =>
        match addDependencySession s (createdIds.getD i 0)
            (createdIds.getD depIndex.toNat 0) with
        | none => none
        | some (.error e) => some (.error (e, s))
        | some (.ok s') => subtaskDepsInner createdIds i s' rest

/-- The outer `for i, subtask_input in enumerate(subtasks)` loop of
`breakdown_task` step 4. -/
def subtaskDepsLoop (createdIds : List Nat) :
    Session → List (Nat × SubtaskInput) →
    Option (Except (WorkflowError × Session) Session)
  | s, [] => some (.ok s)
  | s, (i, sub) :: rest =>
    match subtaskDepsInner createdIds i s sub.dependsOnIndices with
    | none => none
    | some (.error e) => some (.error e)
    | some (.ok s') => subtaskDepsLoop createdIds s' rest

/-- Embedding of `TaskWorkflowService.breakdown_task`: validate the parent,
create the subtasks, allocate time entries and schedule blocks
proportionally, transfer the parent's dependency edges (`mode="to_last"`),
build the explicit inter-subtask dependencies, optionally archive the parent
and commit.  An error result carries the session at the moment the exception
was raised (its `committed` component is what the failed call leaves
behind). -/
def breakdownTask (s : Session) (taskId : Nat) (subtasks : List SubtaskInput)
    (archiveOriginal : Bool) :
    Option (Except (WorkflowError × Session) Session) :=
  match getTaskById s.current taskId with
  | .error e => some (.error (e, s))
  | .ok original =>
    if original.status = "archive" then some (.error (.validation, s))
    else if (s.current.tasks.filter (fun t =>
        t.parentTaskId == some original.id)).length > 0 then
      some (.error (.validation, s))
    else if subtasks.isEmpty then some (.error (.validation, s))
    else
      let startId := freshTaskId s.current
      let created := createSubtasks original subtasks startId
      let createdIds := created.map (fun t => t.id)
      let s₁ : Session := { s with
        current := { s.current with tasks := s.current.tasks ++ created } }
      match calcAllocationProportions subtasks with
      | .error e => some (.error (e, s₁))
      | .ok proportions =>
        let s₂ : Session := { s₁ with
          current := (allocateTimeEntries s₁.current original.id created
            proportions).1 }
        let s₃ : Session := { s₂ with
          current := (allocateSchedules s₂.current original.id created
            proportions).1 }
        let s₄ : Session :=
          if original.id ≠ 0 then
            { s₃ with current := (transferDependencies s₃.current original.id
                createdIds "to_last").1 }
          else s₃
        match subtaskDepsLoop createdIds s₄ subtasks.enum with
        | none => none
        | some (.error e) => some (.error e)
        | some (.ok s₅) =>
          let s₆ : Session :=
            if archiveOriginal then
              { s₅ with current := { s₅.current with
                  tasks := s₅.current.tasks.map (fun t =>
                    if t.id == original.id then { t with status := "archive" }
                    else t) } }
            else s₅
          some (.ok s₆.commitNow)

/-- The task-resolution loop of `merge_tasks` step 1: fetch every id,
raising `NotFoundException` at the first missing one. -/
def resolveTasks (db : DB) : List Nat → Except WorkflowError (List Task)
  | [] => .ok []
  | id :: rest =>
    match getTaskById db id with
    | .error e => .error e
    | .ok t => (resolveTasks db rest).map (fun ts => t :: ts)

/-- `TaskWorkflowService._validate_same_project`: every task shares the first
task's `project_id`. -/
def sameProject (tasks : List Task) : Bool :=
  match tasks with
  | [] => true
  | t :: rest => rest.all (fun u => u.projectId == t.projectId)

/-- Embedding of `TaskWorkflowService.merge_tasks`: validate the sources,
create the merged task, bulk-reassign every `TimeEntry` and `Schedule` row of
the sources to the new id, merge the dependency edges, archive the sources
and commit once at the end. -/
def mergeTasks (s : Session) (taskIds : List Nat) (merged : TaskInput) :
    Except (WorkflowError × Session) Session :=
  if taskIds.length < 2 then .error (.validation, s)
  else
    match resolveTasks s.current taskIds with
    | .error e => .error (e, s)
    | .ok tasks =>
      if !(sameProject tasks) then .error (.validation, s)
      else
        let projectId := (tasks.head?.map (fun t => t.projectId)).getD none
        let newId := freshTaskId s.current
        let newTask : Task :=
          { id := newId
            name := merged.name
            projectId := projectId
            genreId := merged.genreId
            status := "todo"
            estimatedHours := merged.estimatedHours
            parentTaskId := none
            priority := merged.priority
            wantLevel := merged.wantLevel
            deadline := merged.deadline }
        let db₁ := { s.current with tasks := s.current.tasks ++ [newTask] }
        let movedEntries := db₁.timeEntries.map (fun e : TimeEntry =>
          if taskIds.contains e.taskId then { e with taskId := newId } else e)
        let db₂ := { db₁ with timeEntries := movedEntries }
        let movedSchedules := db₂.schedules.map (fun r : ScheduleRow =>
          if taskIds.contains r.taskId then { r with taskId := newId } else r)
        let db₃ := { db₂ with schedules := movedSchedules }
        let db₄ := (mergeDependencies db₃ taskIds newId).1
        let db₅ := { db₄ with tasks := db₄.tasks.map (fun t =>
          if taskIds.contains t.id then { t with status := "archive" } else t) }
        .ok (Session.commitNow { s with current := db₅ })

/- ===== Schedule generation service (`schedule_service.py`) ===== -/

/-- The task data `_gather_schedulable_tasks` prepares for scheduling (only
the fields the claims exercise). -/
structure SchedulableTask where
  id : Nat
  estimatedHours : ℚ
  actualHours : ℚ
  remainingHours : ℚ
  deriving DecidableEq, Repr

/-- The SQL `SUM(duration_minutes)` over a task's time entries (`NULL`
durations contribute nothing). -/
def actualMinutes (db : DB) (taskId : Nat) : Int :=
  ((db.timeEntries.filter (fun e => e.taskId == taskId)).map
    (fun e => e.durationMinutes.getD 0)).sum

/-- Embedding of `ScheduleService._gather_schedulable_tasks`: tasks in status
`todo`/`doing`/`waiting` whose remaining hours are positive.  Python's
`task.estimated_hours or Decimal("1")` makes both a missing and a zero
estimate count as one hour. -/
def gatherSchedulableTasks (db : DB) : List SchedulableTask :=
  (db.tasks.filter (fun t =>
      t.status == "todo" || t.status == "doing" || t.status == "waiting")).filterMap
    (fun t =>
      let actualHours : ℚ := (actualMinutes db t.id : ℚ) / 60
      let estimated : ℚ :=
        match t.estimatedHours with
        | none => 1
        | some v => if v = 0 then 1 else v
      let remaining := max (estimated - actualHours) 0
      if remaining ≤ 0 then none
      else some { id := t.id
                  estimatedHours := estimated
                  actualHours := actualHours
                  remainingHours := remaining })

/-- Embedding of `ScheduleService._clear_existing_ai_schedules`: delete the
AI-generated, still-`scheduled` blocks whose date lies between `week_start`
and `week_end + 1 day` inclusive, and commit.  Returns the new state and the
deleted-row count. -/
def clearExistingAiSchedules (db : DB) (weekStart weekEnd : Int) : DB × Nat :=
  let deleted := db.schedules.filter (fun r =>
    r.isGeneratedByAi && decide (weekStart ≤ r.scheduledDate) &&
      decide (r.scheduledDate ≤ weekEnd + 1) && r.status == "scheduled")
  let kept := db.schedules.filter (fun r =>
    !(r.isGeneratedByAi && decide (weekStart ≤ r.scheduledDate) &&
      decide (r.scheduledDate ≤ weekEnd + 1) && r.status == "scheduled"))
  ({ db with schedules := kept }, deleted.length)

/-- Steps 0-1 of `ScheduleService.generate_weekly_schedule`: compute
`week_end = week_start + 6 days` and, when `clear_existing` is set, run
`_clear_existing_ai_schedules` (which commits the deletion on its own). -/
def generateWeeklyClearStep (db : DB) (weekStart : Int)
    (clearExisting : Bool) : DB :=
  let weekEnd := weekStart + 6
  if clearExisting then (clearExistingAiSchedules db weekStart weekEnd).1
  else db

/-- A decoded JSON value, the result of `json.loads` on the reasoning
service's response text. -/
inductive Json where
  | null
  | bool (b : Bool)
  | num (q : ℚ)
  | str (s : String)
  | arr (items : List Json)
  | obj (fields : List (String × Json))

/-- The Python exception classes `_parse_schedule_response` and
`_create_schedule_records` can raise: `AttributeError` (attribute access on a
non-dict), `TypeError` (`fromisoformat`/`strptime` on a non-string),
`decimal.InvalidOperation` (Decimal conversion failure; not a `ValueError`,
so the `except (KeyError, ValueError)` clause does not catch it), and
`ValidationException` for a non-array response. -/
inductive PyErr where
  | attributeError
  | typeError
  | invalidOperation
  | validationError
  deriving DecidableEq, Repr

/-- Dictionary field lookup (`item.get(key)` / `item[key]` on a decoded JSON
object; decoded objects have unique keys). -/
def lookupField : List (String × Json) → String → Option Json
  | [], _ => none
  | (k, v) :: rest, key => if k = key then some v else lookupField rest key

/-- Numeric value of a list of ASCII digits. -/
def natOfDigits (cs : List Char) : Nat :=
  cs.foldl (fun a c => a * 10 + (c.toNat - 48)) 0

/-- Gregorian leap-year test, as `datetime` implements it. -/
def isLeapYear (y : Nat) : Bool :=
  y % 4 == 0 && (y % 100 != 0 || y % 400 == 0)

/-- Number of days in a month, as `datetime` validates the day field. -/
def daysInMonth (y m : Nat) : Nat :=
  if m == 2 then (if isLeapYear y then 29 else 28)
  else if m == 4 || m == 6 || m == 9 || m == 11 then 30
  else 31

/-- A zero-padded `YYYY-MM-DD` digit string — the date-only shape on which
the model of `datetime.fromisoformat` below is exact (`fromisoformat` also
accepts forms with time components, which the model leaves out of scope). -/
def dateOnlyShape (s : String) : Bool :=
  match s.data with
  | [y1, y2, y3, y4, '-', m1, m2, '-', d1, d2] =>
    [y1, y2, y3, y4, m1, m2, d1, d2].all Char.isDigit
  | _ => false

/-- Model of `datetime.fromisoformat` on date-only strings: a zero-padded
`YYYY-MM-DD` string naming a real calendar day (year at least 1, month 1-12,
day within that month's length) yields an injective day code; everything
else is `none` (Python raises `ValueError`, which the parse loop catches). -/
def parseIsoDate (s : String) : Option Int :=
  match s.data with
  | [y1, y2, y3, y4, '-', m1, m2, '-', d1, d2] =>
    if [y1, y2, y3, y4, m1, m2, d1, d2].all Char.isDigit then
      let yn := natOfDigits [y1, y2, y3, y4]
      let mn := natOfDigits [m1, m2]
      let dn := natOfDigits [d1, d2]
      if 1 ≤ yn ∧ 1 ≤ mn ∧ mn ≤ 12 ∧ 1 ≤ dn ∧ dn ≤ daysInMonth yn mn then
        some ((yn : Int) * 372 + (mn - 1) * 31 + (dn - 1))
      else none
    else none
  | _ => none

/-- Minimal model of `datetime.strptime(s, "%H:%M")` for the `HH:MM` strings
the schedules use, as minutes of the day. -/
def parseHHMM (s : String) : Option Int :=
  match s.splitOn ":" with
  | [h, m] =>
    match h.toNat?, m.toNat? with
    | some hn, some mn =>
      if hn ≤ 23 ∧ mn ≤ 59 then some ((hn : Int) * 60 + mn) else none
    | _, _ => none
  | _ => none

/-- The coefficient of Decimal's numeric-string grammar:
`digits . [digits]  |  [.] digits`. -/
def parseMantissa (cs : List Char) : Option ℚ :=
  let ip := cs.takeWhile Char.isDigit
  match cs.drop ip.length with
  | [] => if ip.isEmpty then none else some ((natOfDigits ip : ℚ))
  | '.' :: frac =>
    if frac.all Char.isDigit && !(ip.isEmpty && frac.isEmpty) then
      some ((natOfDigits ip : ℚ) +
        (natOfDigits frac : ℚ) / (10 : ℚ) ^ frac.length)
    else none
  | _ => none

/-- A finite `decimal-part [exponent-part]` numeral of Decimal's grammar
(exponent indicator `e`/`E` with an optional sign and mandatory digits). -/
def parseFiniteBody (cs : List Char) : Option ℚ :=
  let mant := cs.takeWhile (fun c => !(c == 'e' || c == 'E'))
  match cs.drop mant.length with
  | [] => parseMantissa mant
  | _ :: expPart =>
    let p := match expPart with
      | '+' :: t => (false, t)
      | '-' :: t => (true, t)
      | t => (false, t)
    if !p.2.isEmpty && p.2.all Char.isDigit then
      (parseMantissa mant).map (fun q =>
        if p.1 then q / (10 : ℚ) ^ natOfDigits p.2
        else q * (10 : ℚ) ^ natOfDigits p.2)
    else none

/-- Outcome of `Decimal(s)` on a string: a finite value, a valid non-finite
special (`NaN`, `sNaN`, `Infinity` — these construct fine and do not raise),
or `decimal.InvalidOperation`. -/
inductive DecOut where
  | fin (q : ℚ)
  | nonfin
  | invalid
  deriving DecidableEq, Repr

/-- Model of `Decimal(s)` for strings over the ASCII alphabet, following the
documented numeric-string grammar: leading and trailing whitespace and all
underscores are removed; an optional sign then precedes either a finite
coefficient-exponent numeral, an `Infinity`/`Inf` form, or a `NaN`/`sNaN`
form with an optional digit payload (the alphabetic forms and the exponent
indicator are case-insensitive); anything else raises
`decimal.InvalidOperation`. -/
def decimalOfString (s : String) : DecOut :=
  let cs := (((s.data.dropWhile Char.isWhitespace).reverse.dropWhile
    Char.isWhitespace).reverse).filter (fun c => c ≠ '_')
  let p := match cs with
    | '+' :: t => (false, t)
    | '-' :: t => (true, t)
    | t => (false, t)
  let low := p.2.map Char.toLower
  if low = "infinity".data ∨ low = "inf".data then .nonfin
  else if low.take 3 = "nan".data ∧ (low.drop 3).all Char.isDigit then .nonfin
  else if low.take 4 = "snan".data ∧ (low.drop 4).all Char.isDigit then
    .nonfin
  else
    match parseFiniteBody p.2 with
    | some q => .fin (if p.1 then -q else q)
    | none => .invalid

/-- `Decimal(str(x))` on a decoded JSON value: a number's `str` form is a
plain numeral that converts back exactly; a string is fed to `Decimal`
as it stands; `True`, `False`, `None`, lists and objects stringify to forms
the grammar rejects with `InvalidOperation`. -/
def decimalOfJson : Json → DecOut
  | .num q => .fin q
  | .str s => decimalOfString s
  | _ => .invalid

/-- The numeric value a JSON value carries for Python `==`/set-membership
against `int` ids (`True == 1`, `False == 0`). -/
def jsonIntValue : Json → Option ℚ
  | .num q => some q
  | .bool b => some (if b then 1 else 0)
  | _ => none

/-- The `task_id not in valid_task_ids` test of `_parse_schedule_response`:
set membership hashes the value first, so an unhashable `task_id` (a decoded
JSON list or object) raises an uncaught `TypeError`; a hashable value yields
the matching schedulable id, if any (`None` and strings never equal an `int`
id; a number or boolean matches by numeric equality). -/
def matchTaskId (validIds : List Nat) (j : Option Json) :
    Except PyErr (Option Nat) :=
  match j with
  | none => .ok none
  | some (.arr _) => .error .typeError
  | some (.obj _) => .error .typeError
  | some v =>
    match jsonIntValue v with
    | some q => .ok (validIds.find? (fun i => (i : ℚ) == q))
    | none => .ok none

/-- Embedding of the dataclass `ParsedScheduleEntry`; the optional
`start_time`/`end_time` values are kept as the raw JSON fields, exactly as the
Python dataclass stores whatever the response contained. -/
structure ParsedEntry where
  taskId : Nat
  date : Int
  startTime : Option Json
  endTime : Option Json
  allocatedHours : ℚ

/-- What one loop iteration does with its entry: skip it with a warning,
append a parsed entry, or append an entry whose `allocated_hours` is a
valid non-finite `Decimal` (a `NaN`/`Infinity` string form) — an appended
value the rational model carries no number for. -/
inductive StepOut where
  | dropped
  | kept (e : ParsedEntry)
  | keptNonfinite

/-- One iteration of the `for item in data` loop of
`_parse_schedule_response`: `.error _` is an uncaught exception that aborts
the whole call; otherwise the entry is dropped with a warning or
appended. -/
def parseEntryStep (validIds : List Nat) (item : Json) :
    Except PyErr StepOut :=
  match item with
  | .obj fields =>
    match matchTaskId validIds (lookupField fields "task_id") with
    | .error e => .error e
    | .ok none => .ok .dropped
    | .ok (some tid) =>
      match lookupField fields "date" with
      | none => .ok .dropped
      | some dateJson =>
        match dateJson with
        | .str s =>
          match parseIsoDate s with
          | none => .ok .dropped
          | some date =>
            match lookupField fields "allocated_hours" with
            | none => .ok .dropped
            | some hoursJson =>
              match decimalOfJson hoursJson with
              | .invalid => .error .invalidOperation
              | .nonfin => .ok .keptNonfinite
              | .fin q =>
                .ok (.kept { taskId := tid
                             date := date
                             startTime := lookupField fields "start_time"
                             endTime := lookupField fields "end_time"
                             allocatedHours := q })
        | _ => .error .typeError
  | _ => .error .attributeError

/-- The `for item in data` loop of `_parse_schedule_response`: `some` lists
the appended entries when each one carries a finite `allocated_hours`;
`none` records a successful run that appended a non-finite entry, which the
rational model does not follow further. -/
def parseEntriesLoop (validIds : List Nat) :
    List Json → Except PyErr (Option (List ParsedEntry))
  | [] => .ok (some [])
  | item :: rest =>
    match parseEntryStep validIds item with
    | .error e => .error e
    | .ok .dropped => parseEntriesLoop validIds rest
    | .ok (.kept entry) =>
      (parseEntriesLoop validIds rest).map (fun r =>
        r.map (fun es => entry :: es))
    | .ok .keptNonfinite =>
      (parseEntriesLoop validIds rest).map (fun _ => none)

/-- Embedding of `ScheduleService._parse_schedule_response` from the decoded
response onwards: a non-array decodes to `ValidationException`, then each
entry is handled by `parseEntryStep`. -/
def parseScheduleResponse (data : Json) (tasks : List SchedulableTask) :
    Except PyErr (Option (List ParsedEntry)) :=
  match data with
  | .arr items => parseEntriesLoop (tasks.map (fun t => t.id)) items
  | _ => .error .validationError

/-- Embedding of `ScheduleService._parse_time_string` applied to the raw
JSON value of a `start_time`/`end_time` field: a falsy value returns `None`,
a string is parsed (with the `24:00` special case; an invalid format is a
caught `ValueError`, returning `None`), and any truthy non-string raises
`TypeError`. -/
def parseTimeString : Option Json → Except PyErr (Option Int)
  | none => .ok none
  | some .null => .ok none
  | some (.bool false) => .ok none
  | some (.bool true) => .error .typeError
  | some (.num q) => if q = 0 then .ok none else .error .typeError
  | some (.arr items) =>
    if items.isEmpty then .ok none else .error .typeError
  | some (.obj fields) =>
    if fields.isEmpty then .ok none else .error .typeError
  | some (.str s) =>
    if s = "" then .ok none
    else if s = "24:00" then .ok (some 1440)
    else
      match parseHHMM s with
      | some m => .ok (some m)
      | none => .ok none

/-- The row-construction loop of `ScheduleService._create_schedule_records`
(the rows `session.add` accumulates before the final commit). -/
def createRowsLoop : List ParsedEntry → Except PyErr (List ScheduleRow)
  | [] => .ok []
  | e :: rest =>
    match parseTimeString e.startTime with
    | .error err => .error err
    | .ok st =>
      match parseTimeString e.endTime with
      | .error err => .error err
      | .ok et =>
        (createRowsLoop rest).map (fun rows =>
          { taskId := e.taskId
            scheduledDate := e.date
            startTime := st
            endTime := et
            allocatedHours := e.allocatedHours
            isGeneratedByAi := true
            status := "scheduled" } :: rows)

/-- Embedding of `ScheduleService._create_schedule_records`: persist one
AI-generated `scheduled` block per parsed entry and commit. -/
def createScheduleRecords (db : DB) (entries : List ParsedEntry) :
    Except PyErr DB :=
  (createRowsLoop entries).map (fun rows =>
    { db with schedules := db.schedules ++ rows })

/- ===== Claude client (`clients/claude_client.py`) and router mapping ===== -/

/-- The exception `ClaudeAPIException` of `clients/claude_client.py`,
carrying the optional `status_code` attribute the router inspects. -/
structure ClaudeApiError where
  statusCode : Option Nat
  deriving DecidableEq, Repr

/-- What one underlying `anthropic` SDK call does, as seen through the
`except` clauses of `ClaudeClient.generate_schedule`. -/
inductive UpstreamOutcome where
  | success (text : String)
  | rateLimit
  | apiStatus (code : Nat)
  | connectionFailure
  | otherFailure
  deriving DecidableEq, Repr

/-- The lazy `ClaudeClient.client` property: with a falsy (missing or empty)
API key it raises `ClaudeAPIException` with `status_code=503`. -/
def clientProperty (apiKey : Option String) : Except ClaudeApiError Unit :=
  if apiKey.getD "" = "" then .error { statusCode := some 503 }
  else .ok ()

/-- The `for attempt in range(self.max_retries)` loop of
`ClaudeClient.generate_schedule`.  Accessing `self.client` happens inside the
`try`, so its `ClaudeAPIException` is caught by the blanket
`except Exception` clause and re-raised as a fresh `ClaudeAPIException`
without a status code.  Rate limits and connection errors consume an attempt
and retry; an `APIStatusError` is re-raised with its upstream status; the
exhausted loop raises without a status code. -/
def generateScheduleLoop (apiKey : Option String)
    (outcomes : Nat → UpstreamOutcome) :
    Nat → Nat → Except ClaudeApiError String
  | _, 0 => .error { statusCode := none }
  | attempt, remaining + 1 =>
    match clientProperty apiKey with
    | .error _ => .error { statusCode := none }
    | .ok () =>
      match outcomes attempt with
      | .success text => .ok text
      | .rateLimit => generateScheduleLoop apiKey outcomes (attempt + 1) remaining
      | .apiStatus code => .error { statusCode := some code }
      | .connectionFailure =>
        generateScheduleLoop apiKey outcomes (attempt + 1) remaining
      | .otherFailure => .error { statusCode := none }

/-- Embedding of `ClaudeClient.generate_schedule` (`max_retries` defaults to
3 at construction). -/
def generateScheduleApi (apiKey : Option String)
    (outcomes : Nat → UpstreamOutcome) (maxRetries : Nat) :
    Except ClaudeApiError String :=
  generateScheduleLoop apiKey outcomes 0 maxRetries

/-- The HTTP status the router `workflow/schedule.py` produces for the
outcome of the upstream call: 201 on success, 503 only when the raised
`ClaudeAPIException` carries `status_code == 503`, 502 otherwise. -/
def routeScheduleStatus : Except ClaudeApiError String → Nat
  | .ok _ => 201
  | .error e => if e.statusCode = some 503 then 503 else 502

/-- The process environment, as far as the Claude credential configuration
is concerned. -/
structure Env where
  anthropicApiKey : Option String
  claudeModel : Option String

/-- `settings.ANTHROPIC_API_KEY`: `config.Settings` declares no such field,
and pydantic-settings discards undeclared environment variables under its
default `extra` mode, so this attribute access raises `AttributeError` for
every process environment. -/
def settingsAnthropicApiKey (_env : Env) : Except PyErr String :=
  .error .attributeError

/-- `settings.CLAUDE_MODEL`: likewise undeclared on `config.Settings`, so
this attribute access raises `AttributeError` for every process
environment. -/
def settingsClaudeModel (_env : Env) : Except PyErr String :=
  .error .attributeError

/-- Python `x or y` for an optional string `x` and an attribute access `y`:
the attribute is evaluated exactly when `x` is falsy (`None` or empty). -/
def orAttr (x : Option String) (y : Except PyErr String) :
    Except PyErr String :=
  match x with
  | some s => if s = "" then y else .ok s
  | none => y

/-- `ClaudeClient.__init__`: `self.api_key = api_key or
settings.ANTHROPIC_API_KEY` and `self.model = model or
settings.CLAUDE_MODEL` run in order, so an undeclared settings attribute
raises before the client object exists whenever the corresponding argument
is falsy. -/
def claudeClientInit (env : Env) (apiKey model : Option String) :
    Except PyErr (String × String) :=
  match orAttr apiKey (settingsAnthropicApiKey env) with
  | .error e => .error e
  | .ok key =>
    match orAttr model (settingsClaudeModel env) with
    | .error e => .error e
    | .ok mdl => .ok (key, mdl)

/-- `ScheduleService.__init__`: `self.claude_client = claude_client or
ClaudeClient()` constructs a fresh client when none is passed in. -/
def scheduleServiceInit (env : Env)
    (claudeClient : Option (String × String)) :
    Except PyErr (String × String) :=
  match claudeClient with
  | some c => .ok c
  | none => claudeClientInit env none none

/-- The HTTP status `main.py`'s global exception handler returns for an
exception no router `except` clause catches. -/
def globalHandlerStatus : Nat := 500

/-- The `/generate-weekly` route handler of `routers/workflow/schedule.py`:
`service = ScheduleService()` runs before the `try` block, so an exception
the constructor raises reaches `main.py`'s global handler; with a
constructed client — a branch `scheduleServiceInit` can only take when a
ready-made client is passed in — the `try` body's upstream call is mapped
by the router's `except` clauses. -/
def generateWeeklyRoute (env : Env) (outcomes : Nat → UpstreamOutcome) :
    Nat :=
  match scheduleServiceInit env none with
  | .error _ => globalHandlerStatus
  | .ok (key, _) =>
    routeScheduleStatus (generateScheduleApi (some key) outcomes 3)

/- ===== Specification-side definitions (for refinement comparisons) ===== -/

/-- Proportion algorithm exactly as the specification words it: a manual
`allocated_hours` override contributes its value; among the auto subtasks,
if any has `estimated_hours` each contributes its `estimated_hours`, and if
none do each auto subtask contributes one unit; contributions are normalised
to sum to one, with an equal split across all subtasks when every
contribution is zero.  Written to compare against
`calcAllocationProportions`. -/
def claimedProportions (subtasks : List SubtaskInput) : List ℚ :=
  let autos := subtasks.filter (fun s => s.allocatedHours == none)
  let anyEstimate := autos.any (fun s => !(s.estimatedHours == none))
  let contribution := fun (s : SubtaskInput) =>
    match s.allocatedHours with
    | some v => v
    | none => if anyEstimate then s.estimatedHours.getD 0 else 1
  let raw := subtasks.map contribution
  let total := raw.sum
  if total = 0 then subtasks.map (fun _ => 1 / (subtasks.length : ℚ))
  else raw.map (fun v => v / total)

/-- Per-subtask contribution of the amended proportion description: manual
overrides count directly; auto subtasks contribute their `estimated_hours`
when the auto group's estimate total is positive, else `1 / autoCount` each
(the auto group as a whole contributes one unit). -/
def amendedContribution (subtasks : List SubtaskInput) (s : SubtaskInput) : ℚ :=
  let autos := subtasks.filter (fun u => u.allocatedHours == none)
  let autoTotal := (autos.map (fun u => u.estimatedHours.getD 0)).sum
  match s.allocatedHours with
  | some v => v
  | none => if 0 < autoTotal then s.estimatedHours.getD 0
    else 1 / (autos.length : ℚ)

/-- The share of one subtask under the amended proportion description:
contribution over total, or an equal split when the total is zero. -/
def amendedShare (subtasks : List SubtaskInput) (s : SubtaskInput) : ℚ :=
  let total := (subtasks.map (amendedContribution subtasks)).sum
  if total = 0 then 1 / (subtasks.length : ℚ)
  else amendedContribution subtasks s / total

/-- The entry the parse loop keeps for one array item (`none` when the item
is dropped with a warning or would raise). -/
def keptEntry (validIds : List Nat) (item : Json) : Option ParsedEntry :=
  match parseEntryStep validIds item with
  | .ok (.kept e) => some e
  | _ => none

/-- The time-of-day value `_parse_time_string` yields when it does not
raise. -/
def timeValue (j : Option Json) : Option Int :=
  match parseTimeString j with
  | .ok v => v
  | .error _ => none

/-- The persisted row for one parsed entry (the shape
`_create_schedule_records` builds when `_parse_time_string` does not
raise). -/
def rowOfEntry (e : ParsedEntry) : ScheduleRow :=
  { taskId := e.taskId
    scheduledDate := e.date
    startTime := timeValue e.startTime
    endTime := timeValue e.endTime
    allocatedHours := e.allocatedHours
    isGeneratedByAi := true
    status := "scheduled" }

/-- An optional time field `_parse_time_string` handles without raising. -/
def wellShapedTime (j : Option Json) : Bool :=
  match parseTimeString j with
  | .ok _ => true
  | .error _ => false

/-- An array item whose shape keeps the whole call inside the caught
exception classes and the rational model: a JSON object whose `task_id`
field, when present, is hashable (not a decoded list or object), whose
`date` field, when present, is a zero-padded `YYYY-MM-DD` digit string,
whose `allocated_hours` field, when present, is a number, and whose
optional time fields `_parse_time_string` handles without raising. -/
def wellShapedItem : Json → Bool
  | .obj fields =>
    (match lookupField fields "task_id" with
      | some (.arr _) => false
      | some (.obj _) => false
      | _ => true) &&
    (match lookupField fields "date" with
      | none => true
      | some (.str s) => dateOnlyShape s
      | some _ => false) &&
    (match lookupField fields "allocated_hours" with
      | none => true
      | some (.num _) => true
      | some _ => false) &&
    wellShapedTime (lookupField fields "start_time") &&
    wellShapedTime (lookupField fields "end_time")
  | _ => false

/-- The drop conditions of the amended claim, per array item: an unknown or
missing `task_id`, a missing `date`, a date string `fromisoformat` rejects,
or a missing `allocated_hours`. -/
def claimDropped (validIds : List Nat) : Json → Bool
  | .obj fields =>
    (match matchTaskId validIds (lookupField fields "task_id") with
      | .ok none => true
      | _ => false) ||
    (match lookupField fields "date" with
      | none => true
      | some (.str s) => (parseIsoDate s).isNone
      | some _ => false) ||
    (lookupField fields "allocated_hours").isNone
  | _ => false

/- ===== Concrete instances used by individual claims ===== -/

/-- A minimal task row used by concrete scenarios. -/
def mkTask (id : Nat) (status : String := "todo")
    (estimatedHours : Option ℚ := none) (projectId : Option Nat := some 1) :
    Task :=
  { id := id
    name := "t"
    projectId := projectId
    genreId := none
    status := status
    estimatedHours := estimatedHours
    parentTaskId := none
    priority := "中"
    wantLevel := "中"
    deadline := none }

/-- Database with one leaf task, used by the atomicity scenario. -/
def c1Db : DB :=
  { tasks := [mkTask 1], timeEntries := [], schedules := [], deps := [] }

/-- Subtask specs whose second subtask first adds a valid inter-subtask
dependency (index 0) and then an out-of-range index 5. -/
def c1Subtasks : List SubtaskInput :=
  [{ name := "a" }, { name := "b", dependsOnIndices := [0, 5] }]

/-- One manual subtask (2 hours) plus two auto subtasks without estimates. -/
def c3Input : List SubtaskInput :=
  [{ name := "m", allocatedHours := some 2 }, { name := "a" }, { name := "b" }]

/-- A lone AI-generated, still-`scheduled` block dated seven days after the
week start (the Monday following the requested week). -/
def c4Db : DB :=
  { tasks := [], timeEntries := [],
    schedules := [
      { taskId := 1
        scheduledDate := 7
        startTime := none
        endTime := none
        allocatedHours := 2
        isGeneratedByAi := true
        status := "scheduled" }],
    deps := [] }

/-- The schedulable set for the parse scenarios: a single task with id 1. -/
def c6Tasks : List SchedulableTask :=
  [{ id := 1, estimatedHours := 5, actualHours := 0, remainingHours := 5 }]

/-- A fully valid response entry for task 1. -/
def c6GoodItem : Json :=
  .obj [("task_id", .num 1), ("date", .str "2025-01-13"),
    ("allocated_hours", .num 3)]

/-- A syntactically valid JSON array holding one valid entry and one bare
number (an entry with no `task_id` field at all). -/
def c6Response : Json := .arr [c6GoodItem, .num 42]

/-- Parent task with a completed 90-minute time entry (scenario A). -/
def c8Db : DB :=
  { tasks := [mkTask 1 "todo" (some 6)],
    timeEntries := [
      { taskId := 1
        startTime := 100
        endTime := some 190
        durationMinutes := some 90 }],
    schedules := [], deps := [] }

/-- Subtasks S1 (estimated 2h) and S2 (estimated 4h) of scenario A. -/
def c8Subtasks : List SubtaskInput :=
  [{ name := "S1", estimatedHours := some 2 },
   { name := "S2", estimatedHours := some 4 }]

/-- Two mergeable sibling tasks with their time entries and schedule blocks,
plus an unrelated third task. -/
def c7Db : DB :=
  { tasks := [mkTask 1, mkTask 2, mkTask 3 "todo" none (some 9)],
    timeEntries := [
      { taskId := 1
        startTime := 0
        endTime := some 60
        durationMinutes := some 60 },
      { taskId := 2
        startTime := 10
        endTime := some 40
        durationMinutes := some 30 },
      { taskId := 3
        startTime := 0
        endTime := some 5
        durationMinutes := some 5 }],
    schedules := [
      { taskId := 2
        scheduledDate := 3
        startTime := none
        endTime := none
        allocatedHours := 1
        isGeneratedByAi := false
        status := "scheduled" }],
    deps := [] }

/-- A task without an estimate holding 30 logged minutes, next to a done
task. -/
def c9Db : DB :=
  { tasks := [mkTask 1 "todo" none, mkTask 2 "done" none],
    timeEntries := [
      { taskId := 1
        startTime := 0
        endTime := some 30
        durationMinutes := some 30 }],
    schedules := [], deps := [] }

/-- An acyclic database in which task 2 already depends on task 1. -/
def c10Db : DB :=
  { tasks := [mkTask 1, mkTask 2], timeEntries := [], schedules := [],
    deps := [(2, 1)] }

/-- Two unrelated tasks with no edges, for the successful-insert branch. -/
def c2Db : DB :=
  { tasks := [mkTask 1, mkTask 2], timeEntries := [], schedules := [],
    deps := [] }

/-- The state the failed breakdown call of the atomicity scenario leaves
committed: the two subtasks and the first inter-subtask edge persist. -/
def c1LeakedDb : DB :=
  { tasks := [mkTask 1,
      { id := 2
        name := "a"
        projectId := some 1
        genreId := none
        status := "todo"
        estimatedHours := none
        parentTaskId := some 1
        priority := "中"
        wantLevel := "中"
        deadline := none },
      { id := 3
        name := "b"
        projectId := some 1
        genreId := none
        status := "todo"
        estimatedHours := none
        parentTaskId := some 1
        priority := "中"
        wantLevel := "中"
        deadline := none }],
    timeEntries := [], schedules := [], deps := [(3, 2)] }

/-- The state scenario A commits: parent archived, subtasks S1/S2 created,
and 30- and 60-minute entries allocated from the 90-minute parent entry. -/
def c8ResultDb : DB :=
  { tasks := [
      { id := 1
        name := "t"
        projectId := some 1
        genreId := none
        status := "archive"
        estimatedHours := some 6
        parentTaskId := none
        priority := "中"
        wantLevel := "中"
        deadline := none },
      { id := 2
        name := "S1"
        projectId := some 1
        genreId := none
        status := "todo"
        estimatedHours := some 2
        parentTaskId := some 1
        priority := "中"
        wantLevel := "中"
        deadline := none },
      { id := 3
        name := "S2"
        projectId := some 1
        genreId := none
        status := "todo"
        estimatedHours := some 4
        parentTaskId := some 1
        priority := "中"
        wantLevel := "中"
        deadline := none }],
    timeEntries := [
      { taskId := 1
        startTime := 100
        endTime := some 190
        durationMinutes := some 90 },
      { taskId := 2
        startTime := 100
        endTime := some 190
        durationMinutes := some 30 },
      { taskId := 3
        startTime := 100
        endTime := some 190
        durationMinutes := some 60 }],
    schedules := [], deps := [] }

/- ===== Reachability lemmas ===== -/

theorem mem_succs {edges : List Edge} {a d : Nat} :
    d ∈ succs edges a ↔ (a, d) ∈ edges := by
  simp only [succs, List.mem_map, List.mem_filter, beq_iff_eq]
  constructor
  · rintro ⟨⟨x, y⟩, ⟨hmem, h1⟩, h2⟩
    simp only at h1 h2
    subst h1; subst h2; exact hmem
  · intro h
    exact ⟨(a, d), ⟨h, rfl⟩, rfl⟩

theorem reach_trans {edges : List Edge} {a b c : Nat}
    (hab : Reach edges a b) (hbc : Reach edges b c) : Reach edges a c := by
  induction hab with
  | refl => exact hbc
  | step hmem _ ih => exact Reach.step hmem (ih hbc)

theorem reach_snoc {edges : List Edge} {a b c : Nat}
    (hab : Reach edges a b) (hmem : (b, c) ∈ edges) : Reach edges a c :=
  reach_trans hab (Reach.step hmem (Reach.refl c))

theorem reachPlus_snoc {edges : List Edge} {a b c : Nat}
    (hab : ReachPlus edges a b) (hmem : (b, c) ∈ edges) :
    ReachPlus edges a c := by
  obtain ⟨x, hx, hr⟩ := hab
  exact ⟨x, hx, reach_snoc hr hmem⟩

theorem reach_cases {edges : List Edge} {a c : Nat} (h : Reach edges a c) :
    a = c ∨ ∃ b, (a, b) ∈ edges ∧ Reach edges b c := by
  cases h with
  | refl => exact Or.inl rfl
  | step hmem hr => exact Or.inr ⟨_, hmem, hr⟩

theorem reach_nil {a b : Nat} (h : Reach [] a b) : a = b := by
  cases h with
  | refl => rfl
  | step hmem _ => exact absurd hmem (List.not_mem_nil _)

theorem acyclic_nil : Acyclic [] := by
  rintro a ⟨b, hb, _⟩
  exact absurd hb (List.not_mem_nil _)

theorem le_of_reach_of_lt {edges : List Edge}
    (hlt : ∀ e ∈ edges, e.2 < e.1) {a b : Nat} (h : Reach edges a b) :
    b ≤ a := by
  induction h with
  | refl => exact le_rfl
  | step hmem _ ih => exact le_trans ih (le_of_lt (hlt _ hmem))

/-- A helper criterion: an edge list in which every edge points to a strictly
smaller id is acyclic. -/
theorem acyclic_of_lt {edges : List Edge} (hlt : ∀ e ∈ edges, e.2 < e.1) :
    Acyclic edges := by
  rintro a ⟨b, hb, hr⟩
  have h1 : b < a := hlt _ hb
  have h2 : a ≤ b := le_of_reach_of_lt hlt hr
  omega

theorem reach_append_new {edges : List Edge} {t d x y : Nat}
    (h : Reach (edges ++ [(t, d)]) x y) :
    Reach edges x y ∨ (Reach edges x t ∧ Reach edges d y) := by
  induction h with
  | refl => exact Or.inl (Reach.refl _)
  | @step a b c hmem _ ih =>
    rcases List.mem_append.mp hmem with hold | hnew
    · rcases ih with h1 | ⟨h1, h2⟩
      · exact Or.inl (Reach.step hold h1)
      · exact Or.inr ⟨Reach.step hold h1, h2⟩
    · have hab : a = t ∧ b = d := by
        simpa [Prod.ext_iff] using List.mem_singleton.mp hnew
      obtain ⟨rfl, rfl⟩ := hab
      rcases ih with h1 | ⟨_, h2⟩
      · exact Or.inr ⟨Reach.refl _, h1⟩
      · exact Or.inr ⟨Reach.refl _, h2⟩

/-- Inserting an edge `t → d` whose reverse direction is unreachable keeps
the graph acyclic. -/
theorem acyclic_append_new {edges : List Edge} {t d : Nat}
    (hacyc : Acyclic edges) (hndt : ¬ Reach edges d t) :
    Acyclic (edges ++ [(t, d)]) := by
  rintro a ⟨b, hb, hr⟩
  rcases List.mem_append.mp hb with hold | hnew
  · rcases reach_append_new hr with h1 | ⟨h1, h2⟩
    · exact hacyc a ⟨b, hold, h1⟩
    · exact hndt (reach_trans h2 (Reach.step hold h1))
  · have hab : a = t ∧ b = d := by
      simpa [Prod.ext_iff] using List.mem_singleton.mp hnew
    obtain ⟨rfl, rfl⟩ := hab
    rcases reach_append_new hr with h1 | ⟨_, h2⟩
    · exact hndt h1
    · exact hndt h2

/- ===== DFS unfolding lemmas ===== -/

theorem dfsCheckCycle_zero (edges : List Edge) (current target : Nat)
    (visited stack : List Nat) :
    dfsCheckCycle edges 0 current target visited stack = none := rfl

theorem dfsCheckCycle_succ (edges : List Edge) (fuel : Nat)
    (current target : Nat) (visited stack : List Nat) :
    dfsCheckCycle edges (fuel + 1) current target visited stack =
      if current = target then some (true, visited)
      else if current ∈ visited then some (false, visited)
      else
        dfsLoopF (fun d vis stk => dfsCheckCycle edges fuel d target vis stk)
          (succs edges current) (current :: visited) (current :: stack) := rfl

theorem dfsLoopF_nil (f : Nat → List Nat → List Nat → Option (Bool × List Nat))
    (visited stack : List Nat) :
    dfsLoopF f [] visited stack = some (false, visited) := rfl

theorem dfsLoopF_cons
    (f : Nat → List Nat → List Nat → Option (Bool × List Nat))
    (d : Nat) (rest : List Nat) (visited stack : List Nat) :
    dfsLoopF f (d :: rest) visited stack =
      if d ∈ stack then some (true, visited)
      else
        match f d visited stack with
        | none => none
        | some (true, v) => some (true, v)
        | some (false, v) => dfsLoopF f rest v stack := rfl

/- ===== DFS visited-set monotonicity ===== -/

theorem dfsLoopF_subset_of
    (f : Nat → List Nat → List Nat → Option (Bool × List Nat))
    (hf : ∀ d vis stk b v', f d vis stk = some (b, v') → vis ⊆ v') :
    ∀ ds vis stk b v',
      dfsLoopF f ds vis stk = some (b, v') → vis ⊆ v' := by
  intro ds
  induction ds with
  | nil =>
    intro vis stk b v' h
    rw [dfsLoopF_nil] at h
    obtain ⟨-, rfl⟩ : b = false ∧ vis = v' := by
      simpa [eq_comm] using h
    exact List.Subset.refl _
  | cons d rest ih =>
    intro vis stk b v' h
    rw [dfsLoopF_cons] at h
    by_cases hstk : d ∈ stk
    · simp only [hstk, if_true] at h
      obtain ⟨-, rfl⟩ : b = true ∧ vis = v' := by simpa [eq_comm] using h
      exact List.Subset.refl _
    · simp only [hstk, if_false] at h
      cases hres : f d vis stk with
      | none => rw [hres] at h; cases h
      | some r =>
        obtain ⟨br, vr⟩ := r
        rw [hres] at h
        cases br with
        | true =>
          simp only at h
          obtain ⟨-, h2⟩ : true = b ∧ vr = v' := by simpa using h
          exact h2 ▸ hf d vis stk true vr hres
        | false =>
          simp only at h
          exact (hf d vis stk false vr hres).trans (ih vr stk b v' h)

theorem dfsCheckCycle_subset (edges : List Edge) :
    ∀ fuel cur tgt vis stk b v',
      dfsCheckCycle edges fuel cur tgt vis stk = some (b, v') → vis ⊆ v' := by
  intro fuel
  induction fuel with
  | zero =>
    intro cur tgt vis stk b v' h
    rw [dfsCheckCycle_zero] at h
    cases h
  | succ fuel ih =>
    intro cur tgt vis stk b v' h
    rw [dfsCheckCycle_succ] at h
    by_cases h1 : cur = tgt
    · simp only [h1, if_true] at h
      obtain ⟨-, rfl⟩ : true = b ∧ vis = v' := by simpa using h
      exact List.Subset.refl _
    · simp only [h1, if_false] at h
      by_cases h2 : cur ∈ vis
      · simp only [h2, if_true] at h
        obtain ⟨-, rfl⟩ : false = b ∧ vis = v' := by simpa using h
        exact List.Subset.refl _
      · simp only [h2, if_false] at h
        exact (List.subset_cons_self cur vis).trans
          (dfsLoopF_subset_of _ (fun d vis stk => ih d tgt vis stk)
            _ _ _ b v' h)

/- ===== DFS termination: the supplied fuel suffices ===== -/

theorem length_filter_le_of_imp {l : List Nat} {p q : Nat → Bool}
    (h : ∀ x, q x = true → p x = true) :
    (l.filter q).length ≤ (l.filter p).length := by
  induction l with
  | nil => simp
  | cons a t ih =>
    by_cases hq : q a = true
    · have hp := h a hq
      simp only [List.filter_cons, hq, hp, if_true]
      simpa using ih
    · simp only [Bool.not_eq_true] at hq
      by_cases hp : p a = true
      · simp only [List.filter_cons, hq, hp, if_true]
        simp only [Bool.false_eq_true, if_false, List.length_cons]
        omega
      · simp only [Bool.not_eq_true] at hp
        simp only [List.filter_cons, hq, hp, Bool.false_eq_true, if_false]
        exact ih

theorem length_filter_lt_of_mem {l : List Nat} {p q : Nat → Bool} {a : Nat}
    (h : ∀ x, q x = true → p x = true) (ha : a ∈ l) (hpa : p a = true)
    (hqa : q a = false) :
    (l.filter q).length < (l.filter p).length := by
  induction l with
  | nil => cases ha
  | cons b t ih =>
    rcases List.mem_cons.mp ha with rfl | hat
    · simp only [List.filter_cons, hpa, hqa, if_true, Bool.false_eq_true,
        if_false, List.length_cons]
      have := length_filter_le_of_imp (l := t) h
      omega
    · by_cases hqb : q b = true
      · have hpb := h b hqb
        simp only [List.filter_cons, hqb, hpb, if_true, List.length_cons]
        exact Nat.succ_lt_succ (ih hat)
      · simp only [Bool.not_eq_true] at hqb
        by_cases hpb : p b = true
        · simp only [List.filter_cons, hqb, hpb, if_true, Bool.false_eq_true,
            if_false, List.length_cons]
          have := ih hat
          omega
        · simp only [Bool.not_eq_true] at hpb
          simp only [List.filter_cons, hqb, hpb, Bool.false_eq_true, if_false]
          exact ih hat

theorem unvisited_le_of_subset {edges : List Edge} {vis vis' : List Nat}
    (h : vis ⊆ vis') : unvisited edges vis' ≤ unvisited edges vis := by
  apply length_filter_le_of_imp
  intro x hx
  simp only [decide_eq_true_eq] at hx ⊢
  exact fun hmem => hx (h hmem)

theorem mem_nodes_fst {edges : List Edge} {a b : Nat}
    (h : (a, b) ∈ edges) : a ∈ nodes edges := by
  simp only [nodes, List.mem_flatMap]
  exact ⟨(a, b), h, by simp⟩

theorem unvisited_cons_lt {edges : List Edge} {vis : List Nat} {cur : Nat}
    (hn : cur ∈ nodes edges) (hv : cur ∉ vis) :
    unvisited edges (cur :: vis) < unvisited edges vis := by
  apply length_filter_lt_of_mem (a := cur) _ hn
  · simpa using hv
  · simp
  · intro x hx
    simp only [decide_eq_true_eq, List.mem_cons] at hx ⊢
    exact fun hmem => hx (Or.inr hmem)

theorem dfsLoopF_ne_none_of (edges : List Edge) (fuel : Nat)
    (f : Nat → List Nat → List Nat → Option (Bool × List Nat))
    (hmono : ∀ d vis stk b v', f d vis stk = some (b, v') → vis ⊆ v')
    (hf : ∀ d vis stk, unvisited edges vis < fuel → f d vis stk ≠ none) :
    ∀ ds vis stk, unvisited edges vis < fuel →
      dfsLoopF f ds vis stk ≠ none := by
  intro ds
  induction ds with
  | nil =>
    intro vis stk _
    rw [dfsLoopF_nil]
    exact Option.some_ne_none _
  | cons d rest ih =>
    intro vis stk hlt
    rw [dfsLoopF_cons]
    by_cases hstk : d ∈ stk
    · simp only [hstk, if_true]
      exact Option.some_ne_none _
    · simp only [hstk, if_false]
      cases hres : f d vis stk with
      | none => exact absurd hres (hf d vis stk hlt)
      | some r =>
        obtain ⟨br, vr⟩ := r
        cases br with
        | true => exact Option.some_ne_none _
        | false =>
          have hsub := hmono d vis stk false vr hres
          exact ih vr stk (lt_of_le_of_lt (unvisited_le_of_subset hsub)
            hlt)

theorem dfsCheckCycle_ne_none (edges : List Edge) :
    ∀ fuel cur tgt vis stk, unvisited edges vis < fuel →
      dfsCheckCycle edges fuel cur tgt vis stk ≠ none := by
  intro fuel
  induction fuel with
  | zero => intro cur tgt vis stk hlt; omega
  | succ fuel ih =>
    intro cur tgt vis stk hlt
    rw [dfsCheckCycle_succ]
    by_cases h1 : cur = tgt
    · simp only [h1, if_true]
      exact Option.some_ne_none _
    · simp only [h1, if_false]
      by_cases h2 : cur ∈ vis
      · simp only [h2, if_true]
        exact Option.some_ne_none _
      · simp only [h2, if_false]
        cases hsucc : succs edges cur with
        | nil =>
          rw [dfsLoopF_nil]
          exact Option.some_ne_none _
        | cons d rest =>
          have hdmem : d ∈ succs edges cur := by rw [hsucc]; simp
          have hcur : cur ∈ nodes edges := mem_nodes_fst (mem_succs.mp hdmem)
          have hlt' : unvisited edges (cur :: vis) < fuel :=
            lt_of_lt_of_le (unvisited_cons_lt hcur h2) (by omega)
          exact dfsLoopF_ne_none_of edges fuel
            (fun d vis stk => dfsCheckCycle edges fuel d tgt vis stk)
            (fun d vis stk => dfsCheckCycle_subset edges fuel d tgt vis stk)
            (fun d vis stk => ih d tgt vis stk) (d :: rest)
            (cur :: vis) (cur :: stk) hlt'

/- ===== DFS soundness: a `true` result means the target is reachable ===== -/

theorem dfsLoopF_true_reach (edges : List Edge)
    (hacyc : Acyclic edges) (tgt : Nat)
    (f : Nat → List Nat → List Nat → Option (Bool × List Nat))
    (hf : ∀ d vis stk v', (∀ s ∈ stk, Reach edges s d) →
      f d vis stk = some (true, v') → Reach edges d tgt) :
    ∀ ds vis stk a v', (∀ d ∈ ds, (a, d) ∈ edges) →
      (∀ s ∈ stk, Reach edges s a) →
      dfsLoopF f ds vis stk = some (true, v') →
      Reach edges a tgt := by
  intro ds
  induction ds with
  | nil =>
    intro vis stk a v' _ _ h
    rw [dfsLoopF_nil] at h
    simp at h
  | cons d rest ih =>
    intro vis stk a v' hedge hstk h
    have hda : (a, d) ∈ edges := hedge d (List.mem_cons_self d rest)
    rw [dfsLoopF_cons] at h
    by_cases hdstk : d ∈ stk
    · exact absurd ⟨d, hda, hstk d hdstk⟩ (hacyc a)
    · simp only [hdstk, if_false] at h
      cases hres : f d vis stk with
      | none => rw [hres] at h; cases h
      | some r =>
        obtain ⟨br, vr⟩ := r
        rw [hres] at h
        cases br with
        | true =>
          have hr : Reach edges d tgt := hf d vis stk vr
            (fun s hs => reach_snoc (hstk s hs) hda) hres
          exact Reach.step hda hr
        | false =>
          exact ih vr stk a v'
            (fun x hx => hedge x (List.mem_cons_of_mem d hx)) hstk h

theorem dfsCheckCycle_true_reach (edges : List Edge) (hacyc : Acyclic edges) :
    ∀ fuel cur tgt vis stk v', (∀ s ∈ stk, Reach edges s cur) →
      dfsCheckCycle edges fuel cur tgt vis stk = some (true, v') →
      Reach edges cur tgt := by
  intro fuel
  induction fuel with
  | zero =>
    intro cur tgt vis stk v' _ h
    rw [dfsCheckCycle_zero] at h
    cases h
  | succ fuel ih =>
    intro cur tgt vis stk v' hstk h
    rw [dfsCheckCycle_succ] at h
    by_cases h1 : cur = tgt
    · subst h1; exact Reach.refl cur
    · simp only [h1, if_false] at h
      by_cases h2 : cur ∈ vis
      · simp only [h2, if_true] at h
        simp at h
      · simp only [h2, if_false] at h
        apply dfsLoopF_true_reach edges hacyc tgt
          (fun d vis stk => dfsCheckCycle edges fuel d tgt vis stk)
          (fun d vis stk => ih d tgt vis stk) (succs edges cur)
          (cur :: vis) (cur :: stk) cur v'
        · exact fun d hd => mem_succs.mp hd
        · intro s hs
          rcases List.mem_cons.mp hs with rfl | hmem
          · exact Reach.refl s
          · exact hstk s hmem
        · exact h

/- ===== DFS completeness: a `false` result means no path exists ===== -/

theorem dfsLoopF_false_spec (edges : List Edge) (tgt : Nat)
    (f : Nat → List Nat → List Nat → Option (Bool × List Nat))
    (hmono : ∀ d vis stk b v', f d vis stk = some (b, v') → vis ⊆ v')
    (hf : ∀ d vis stk v',
      (∀ s ∈ stk, ReachPlus edges s d) →
      (∀ v ∈ vis, v ∈ stk ∨ ¬ Reach edges v tgt) →
      f d vis stk = some (false, v') →
      d ∈ v' ∧ ¬ Reach edges d tgt ∧
        ∀ v ∈ v', v ∈ stk ∨ ¬ Reach edges v tgt) :
    ∀ ds vis stk a v',
      (∀ d ∈ ds, (a, d) ∈ edges) →
      (∀ s ∈ stk, ReachPlus edges s a ∨ s = a) →
      (∀ v ∈ vis, v ∈ stk ∨ ¬ Reach edges v tgt) →
      dfsLoopF f ds vis stk = some (false, v') →
      vis ⊆ v' ∧ (∀ v ∈ v', v ∈ stk ∨ ¬ Reach edges v tgt) ∧
        ∀ d ∈ ds, ¬ Reach edges d tgt := by
  intro ds
  induction ds with
  | nil =>
    intro vis stk a v' _ _ hpre h
    rw [dfsLoopF_nil] at h
    obtain ⟨-, rfl⟩ : false = false ∧ vis = v' := by simpa using h
    exact ⟨List.Subset.refl _, hpre, by simp⟩
  | cons d rest ih =>
    intro vis stk a v' hedge hstka hpre h
    have hda : (a, d) ∈ edges := hedge d (List.mem_cons_self d rest)
    rw [dfsLoopF_cons] at h
    by_cases hdstk : d ∈ stk
    · simp only [hdstk, if_true] at h
      simp at h
    · simp only [hdstk, if_false] at h
      cases hres : f d vis stk with
      | none => rw [hres] at h; cases h
      | some r =>
        obtain ⟨br, vr⟩ := r
        rw [hres] at h
        cases br with
        | true => simp at h
        | false =>
          have hstkd : ∀ s ∈ stk, ReachPlus edges s d := by
            intro s hs
            rcases hstka s hs with hp | rfl
            · exact reachPlus_snoc hp hda
            · exact ⟨d, hda, Reach.refl d⟩
          obtain ⟨hdv, hdnr, hpost⟩ := hf d vis stk vr hstkd hpre hres
          obtain ⟨hsub, hpost', hrest⟩ := ih vr stk a v'
            (fun x hx => hedge x (List.mem_cons_of_mem d hx)) hstka hpost h
          refine ⟨?_, hpost', ?_⟩
          · exact (hmono d vis stk false vr hres).trans hsub
          · intro x hx
            rcases List.mem_cons.mp hx with rfl | hmem
            · exact hdnr
            · exact hrest x hmem

theorem dfsCheckCycle_false_spec (edges : List Edge) (hacyc : Acyclic edges) :
    ∀ fuel cur tgt vis stk v',
      (∀ s ∈ stk, ReachPlus edges s cur) →
      (∀ v ∈ vis, v ∈ stk ∨ ¬ Reach edges v tgt) →
      dfsCheckCycle edges fuel cur tgt vis stk = some (false, v') →
      cur ∈ v' ∧ ¬ Reach edges cur tgt ∧
        ∀ v ∈ v', v ∈ stk ∨ ¬ Reach edges v tgt := by
  intro fuel
  induction fuel with
  | zero =>
    intro cur tgt vis stk v' _ _ h
    rw [dfsCheckCycle_zero] at h
    cases h
  | succ fuel ih =>
    intro cur tgt vis stk v' hstk hpre h
    rw [dfsCheckCycle_succ] at h
    by_cases h1 : cur = tgt
    · simp only [h1, if_true] at h
      simp at h
    · simp only [h1, if_false] at h
      by_cases h2 : cur ∈ vis
      · simp only [h2, if_true] at h
        obtain ⟨-, rfl⟩ : false = false ∧ vis = v' := by simpa using h
        have hcur : ¬ Reach edges cur tgt := by
          rcases hpre cur h2 with hs | hnr
          · exact absurd (hstk cur hs) (hacyc cur)
          · exact hnr
        exact ⟨h2, hcur, hpre⟩
      · simp only [h2, if_false] at h
        have hstka : ∀ s ∈ cur :: stk, ReachPlus edges s cur ∨ s = cur := by
          intro s hs
          rcases List.mem_cons.mp hs with rfl | hmem
          · exact Or.inr rfl
          · exact Or.inl (hstk s hmem)
        have hpre' : ∀ v ∈ cur :: vis,
            v ∈ cur :: stk ∨ ¬ Reach edges v tgt := by
          intro v hv
          rcases List.mem_cons.mp hv with rfl | hmem
          · exact Or.inl (List.mem_cons_self v stk)
          · rcases hpre v hmem with hs | hnr
            · exact Or.inl (List.mem_cons_of_mem cur hs)
            · exact Or.inr hnr
        obtain ⟨hsub, hpost, hsucc⟩ := dfsLoopF_false_spec edges tgt
          (fun d vis stk => dfsCheckCycle edges fuel d tgt vis stk)
          (fun d vis stk => dfsCheckCycle_subset edges fuel d tgt vis stk)
          (fun d vis stk => ih d tgt vis stk)
          (succs edges cur) (cur :: vis) (cur :: stk) cur v'
          (fun d hd => mem_succs.mp hd) hstka hpre' h
        have hcv : cur ∈ v' := hsub (List.mem_cons_self cur vis)
        have hcnr : ¬ Reach edges cur tgt := by
          intro hr
          rcases reach_cases hr with rfl | ⟨b, hb, hrb⟩
          · exact h1 rfl
          · exact hsucc b (mem_succs.mpr hb) hrb
        refine ⟨hcv, hcnr, ?_⟩
        intro v hv
        rcases hpost v hv with hs | hnr
        · rcases List.mem_cons.mp hs with rfl | hmem
          · exact Or.inr hcnr
          · exact Or.inl hmem
        · exact Or.inr hnr

/- ===== Top-level DFS behaviour on acyclic graphs ===== -/

theorem unvisited_nil_lt_dfsFuel (edges : List Edge) :
    unvisited edges [] < dfsFuel edges := by
  unfold unvisited dfsFuel
  have : ((nodes edges).filter (fun n => decide (¬ n ∈ ([] : List Nat)))).length ≤
      (nodes edges).length := List.length_filter_le _ _
  omega

theorem dfsCheckCycle_top_reach {edges : List Edge} (hacyc : Acyclic edges)
    {d t : Nat} (h : Reach edges d t) :
    ∃ v, dfsCheckCycle edges (dfsFuel edges) d t [] [] = some (true, v) := by
  cases hres : dfsCheckCycle edges (dfsFuel edges) d t [] [] with
  | none =>
    exact absurd hres
      (dfsCheckCycle_ne_none edges (dfsFuel edges) d t [] []
        (unvisited_nil_lt_dfsFuel edges))
  | some r =>
    obtain ⟨b, v⟩ := r
    cases b with
    | true => exact ⟨v, rfl⟩
    | false =>
      have := (dfsCheckCycle_false_spec edges hacyc (dfsFuel edges) d t [] []
        v (by simp) (by simp) hres).2.1
      exact absurd h this

theorem dfsCheckCycle_top_not_reach {edges : List Edge} (hacyc : Acyclic edges)
    {d t : Nat} (h : ¬ Reach edges d t) :
    ∃ v, dfsCheckCycle edges (dfsFuel edges) d t [] [] = some (false, v) := by
  cases hres : dfsCheckCycle edges (dfsFuel edges) d t [] [] with
  | none =>
    exact absurd hres
      (dfsCheckCycle_ne_none edges (dfsFuel edges) d t [] []
        (unvisited_nil_lt_dfsFuel edges))
  | some r =>
    obtain ⟨b, v⟩ := r
    cases b with
    | false => exact ⟨v, rfl⟩
    | true =>
      have := dfsCheckCycle_true_reach edges hacyc (dfsFuel edges) d t [] []
        v (by simp) hres
      exact absurd this h

theorem checkCycle_cycle {edges : List Edge} (hacyc : Acyclic edges)
    {t d : Nat} (h : Reach edges d t) :
    checkCycle edges t [d] = some (.error .dependencyCycle) := by
  obtain ⟨v, hv⟩ := dfsCheckCycle_top_reach hacyc h
  unfold checkCycle
  rw [hv]

theorem checkCycle_ok {edges : List Edge} (hacyc : Acyclic edges)
    {t d : Nat} (h : ¬ Reach edges d t) :
    checkCycle edges t [d] = some (.ok ()) := by
  obtain ⟨v, hv⟩ := dfsCheckCycle_top_not_reach hacyc h
  unfold checkCycle
  rw [hv]
  unfold checkCycle
  rfl

/- ===== `add_dependency` behaviour on acyclic graphs ===== -/

theorem addDependencySession_ok (db : DB) (t d : Nat)
    (hacyc : Acyclic db.deps) (hne : t ≠ d)
    (ht : (getTaskById db t).isOk = true)
    (hd : (getTaskById db d).isOk = true)
    (hnr : ¬ Reach db.deps d t) :
    addDependencySession ⟨db, db⟩ t d =
      some (.ok ⟨{ db with deps := db.deps ++ [(t, d)] },
        { db with deps := db.deps ++ [(t, d)] }⟩) := by
  unfold addDependencySession
  rw [if_neg hne]
  cases hres1 : getTaskById db t with
  | error e => rw [hres1] at ht; simp [Except.isOk, Except.toBool] at ht
  | ok task1 =>
    cases hres2 : getTaskById db d with
    | error e => rw [hres2] at hd; simp [Except.isOk, Except.toBool] at hd
    | ok task2 =>
      simp only
      rw [checkCycle_ok hacyc hnr]
      rfl

theorem addDependencySession_cycle (db : DB) (t d : Nat)
    (hacyc : Acyclic db.deps) (hne : t ≠ d)
    (ht : (getTaskById db t).isOk = true)
    (hd : (getTaskById db d).isOk = true)
    (hr : Reach db.deps d t) :
    addDependencySession ⟨db, db⟩ t d =
      some (.error .dependencyCycle) := by
  unfold addDependencySession
  rw [if_neg hne]
  cases hres1 : getTaskById db t with
  | error e => rw [hres1] at ht; simp [Except.isOk, Except.toBool] at ht
  | ok task1 =>
    cases hres2 : getTaskById db d with
    | error e => rw [hres2] at hd; simp [Except.isOk, Except.toBool] at hd
    | ok task2 =>
      simp only
      rw [checkCycle_cycle hacyc hr]

/-- C2: for every acyclic dependency edge set and candidate edge
`(t, d)` with distinct, existing endpoints, `add_dependency` succeeds and
appends the edge — and the result is still acyclic — exactly when `t` is not
reachable from `d`; when `t` is reachable from `d` (the candidate would
close a cycle) it fails with `DependencyCycleException`, raised before any
mutation, leaving the edge set unchanged. -/
theorem C2_add_dependency_cycle_safety (db : DB) (t d : Nat)
    (hacyc : Acyclic db.deps) (hne : t ≠ d)
    (ht : (getTaskById db t).isOk = true)
    (hd : (getTaskById db d).isOk = true) :
    (¬ Reach db.deps d t →
      addDependencySession ⟨db, db⟩ t d =
        some (.ok ⟨{ db with deps := db.deps ++ [(t, d)] },
          { db with deps := db.deps ++ [(t, d)] }⟩) ∧
      Acyclic (db.deps ++ [(t, d)])) ∧
    (Reach db.deps d t →
      addDependencySession ⟨db, db⟩ t d =
        some (.error .dependencyCycle)) := by
  constructor
  · intro hnr
    exact ⟨addDependencySession_ok db t d hacyc hne ht hd hnr,
      acyclic_append_new hacyc hnr⟩
  · intro hr
    exact addDependencySession_cycle db t d hacyc hne ht hd hr

/-- Witness for C2 at a concrete two-task database with no edges. -/
theorem C2_add_dependency_cycle_safety_witness :
    ∃ s', addDependencySession ⟨c2Db, c2Db⟩ 1 2 = some (.ok s') ∧
      Acyclic s'.current.deps := by
  have h := (C2_add_dependency_cycle_safety c2Db 1 2 acyclic_nil
    (by decide) (by decide) (by decide)).1
    (fun hr => absurd (reach_nil hr) (by decide))
  exact ⟨_, h.1, h.2⟩

/-- C10: on an acyclic edge set that already contains the edge `(t, d)`,
`add_dependency` passes the self-reference, existence and cycle checks (the
existing edge makes the reverse direction unreachable on an acyclic graph)
and inserts a second identical edge: the committed edge list then counts the
pair twice.  No error of the service taxonomy is raised. -/
theorem C10_duplicate_edge_inserted (db : DB) (t d : Nat)
    (hacyc : Acyclic db.deps) (hmem : (t, d) ∈ db.deps)
    (ht : (getTaskById db t).isOk = true)
    (hd : (getTaskById db d).isOk = true) :
    addDependencySession ⟨db, db⟩ t d =
      some (.ok ⟨{ db with deps := db.deps ++ [(t, d)] },
        { db with deps := db.deps ++ [(t, d)] }⟩) ∧
    2 ≤ (db.deps ++ [(t, d)]).count (t, d) := by
  have hne : t ≠ d := by
    rintro rfl
    exact hacyc t ⟨t, hmem, Reach.refl t⟩
  have hnr : ¬ Reach db.deps d t := fun hr => hacyc t ⟨d, hmem, hr⟩
  refine ⟨addDependencySession_ok db t d hacyc hne ht hd hnr, ?_⟩
  rw [List.count_append]
  have h1 : 0 < db.deps.count (t, d) := List.count_pos_iff.mpr hmem
  have h2 : ([(t, d)] : List Edge).count (t, d) = 1 := by simp
  omega

/-- Witness for C10 at a database whose edge set already holds `(2, 1)`. -/
theorem C10_duplicate_edge_inserted_witness :
    addDependencySession ⟨c10Db, c10Db⟩ 2 1 =
      some (.ok ⟨{ c10Db with deps := [(2, 1), (2, 1)] },
        { c10Db with deps := [(2, 1), (2, 1)] }⟩) ∧
    2 ≤ ([(2, 1), (2, 1)] : List Edge).count (2, 1) := by
  have hacyc : Acyclic c10Db.deps :=
    acyclic_of_lt (by intro e he; fin_cases he; decide)
  have h := C10_duplicate_edge_inserted c10Db 2 1 hacyc (by decide)
    (by decide) (by decide)
  exact h

section ConcreteEvaluation

attribute [local semireducible] Rat.add Rat.mul Rat.sub Rat.inv

set_option maxRecDepth 2000

/-- C1: workflow invocations are not atomic.  Breaking down task 1 into two
subtasks, where the second subtask lists a valid dependency index 0 followed
by the out-of-range index 5, fails with `ValidationException` — yet the
inner `add_dependency` call has already committed, so the two created
subtasks and the edge `(3, 2)` persist after the failed call, unlike the
untouched state the claim requires. -/
theorem C1_breakdown_not_atomic :
    breakdownTask ⟨c1Db, c1Db⟩ 1 c1Subtasks true =
      some (.error (.validation, ⟨c1LeakedDb, c1LeakedDb⟩)) ∧
    c1LeakedDb ≠ c1Db ∧ c1LeakedDb.deps = [(3, 2)] ∧
    c1LeakedDb.tasks.length = 3 := by
  refine ⟨by decide, by decide, by decide, by decide⟩

/-- C8: scenario A.  Decomposing a task with one completed 90-minute entry
into S1 (estimated 2h) and S2 (estimated 4h) yields proportions 1/3 and 2/3
and creates a 30-minute entry for S1 and a 60-minute entry for S2 by
truncating `total_minutes * proportion`. -/
theorem C8_decomposition_scenario_a :
    calcAllocationProportions c8Subtasks = .ok [1/3, 2/3] ∧
    breakdownTask ⟨c8Db, c8Db⟩ 1 c8Subtasks true =
      some (.ok ⟨c8ResultDb, c8ResultDb⟩) ∧
    (c8ResultDb.timeEntries.filter (fun e => e.taskId == 2)).map
      (fun e => e.durationMinutes) = [some 30] ∧
    (c8ResultDb.timeEntries.filter (fun e => e.taskId == 3)).map
      (fun e => e.durationMinutes) = [some 60] := by
  refine ⟨by decide, by decide, by decide, by decide⟩

theorem list_sum_map_const {α : Type} (l : List α) (c : ℚ) :
    (l.map (fun _ => c)).sum = l.length * c := by
  induction l with
  | nil => simp
  | cons x t ih =>
    simp only [List.map_cons, List.sum_cons, ih, List.length_cons]
    push_cast
    ring

theorem list_sum_map_div (l : List ℚ) (t : ℚ) :
    (l.map (fun v => v / t)).sum = l.sum / t := by
  induction l with
  | nil => simp
  | cons x tl ih =>
    simp only [List.map_cons, List.sum_cons, ih, add_div]

/-- C3 counterexample: with one manual 2-hour subtask and two auto subtasks
without estimates, the code normalises `[2, 1/2, 1/2]` to `[2/3, 1/6, 1/6]`,
while the claim's algorithm (one whole unit per unestimated auto subtask)
yields `[1/2, 1/4, 1/4]`. -/
theorem C3_proportions_counterexample :
    calcAllocationProportions c3Input = .ok [2/3, 1/6, 1/6] ∧
    claimedProportions c3Input = [1/2, 1/4, 1/4] ∧
    calcAllocationProportions c3Input ≠ .ok (claimedProportions c3Input) := by
  refine ⟨by decide, by decide, by decide⟩

/-- C3 amended: for non-empty specs with no negative hours, the computed
shares normalise the per-subtask contributions — a manual `allocated_hours`
override directly, an auto subtask's `estimated_hours` when the auto group's
estimate total is positive, and `1 / autoCount` (the auto group splitting
one unit equally) otherwise — to sum to one, with an equal split across all
subtasks when every contribution is zero. -/
theorem C3_amended_proportions (subtasks : List SubtaskInput)
    (hne : subtasks ≠ [])
    (hnn : ∀ s ∈ subtasks, 0 ≤ s.allocatedHours.getD 0 ∧
      0 ≤ s.estimatedHours.getD 0) :
    ∃ props, calcAllocationProportions subtasks = .ok props ∧
      props.length = subtasks.length ∧ props.sum = 1 ∧
      ∀ i (hi : i < subtasks.length) (hp : i < props.length),
        props[i] = amendedShare subtasks subtasks[i] := by
  have hlen : (subtasks.length : ℚ) ≠ 0 := by
    have := List.length_pos.mpr hne
    positivity
  have hneg : ¬ (subtasks.any (fun s =>
      decide (s.allocatedHours.getD 0 < 0) ||
        decide (s.estimatedHours.getD 0 < 0)) = true) := by
    intro hany
    rw [List.any_eq_true] at hany
    obtain ⟨s, hs, hor⟩ := hany
    simp only [Bool.or_eq_true, decide_eq_true_eq] at hor
    rcases hor with h | h
    · exact absurd h (not_lt.mpr (hnn s hs).1)
    · exact absurd h (not_lt.mpr (hnn s hs).2)
  have hcalc : calcAllocationProportions subtasks =
      (if (subtasks.map (amendedContribution subtasks)).sum = 0 then
        Except.ok (subtasks.map (fun _ => 1 / (subtasks.length : ℚ)))
      else
        Except.ok ((subtasks.map (amendedContribution subtasks)).map
          (fun v => v / (subtasks.map (amendedContribution subtasks)).sum))) := by
    unfold calcAllocationProportions
    rw [if_neg hneg]
    rfl
  by_cases h0 : (subtasks.map (amendedContribution subtasks)).sum = 0
  · refine ⟨subtasks.map (fun _ => 1 / (subtasks.length : ℚ)), ?_, ?_, ?_, ?_⟩
    · rw [hcalc, if_pos h0]
    · simp
    · rw [list_sum_map_const]
      field_simp
    · intro i hi hp
      rw [List.getElem_map]
      unfold amendedShare
      rw [if_pos h0]
  · refine ⟨(subtasks.map (amendedContribution subtasks)).map
      (fun v => v / (subtasks.map (amendedContribution subtasks)).sum),
      ?_, ?_, ?_, ?_⟩
    · rw [hcalc, if_neg h0]
    · simp
    · rw [list_sum_map_div, div_self h0]
    · intro i hi hp
      rw [List.getElem_map, List.getElem_map]
      unfold amendedShare
      rw [if_neg h0]

/-- Witness for C3 at the three-subtask input of the counterexample. -/
theorem C3_amended_proportions_witness :
    ∃ props, calcAllocationProportions c3Input = .ok props ∧
      props.sum = 1 := by
  obtain ⟨props, h1, -, h3, -⟩ := C3_amended_proportions c3Input
    (by decide) (by decide)
  exact ⟨props, h1, h3⟩

theorem count_filter_ite {α : Type} [DecidableEq α] (p : α → Bool)
    (l : List α) (a : α) :
    (l.filter p).count a = if p a = true then l.count a else 0 := by
  by_cases hp : p a = true
  · rw [if_pos hp]
    exact List.count_filter hp
  · rw [if_neg hp]
    rw [List.count_eq_zero]
    intro hmem
    exact hp (List.of_mem_filter hmem)

/-- C4 counterexample: with `week_start = 0`, a still-`scheduled`
AI-generated block dated day 7 — the Monday after the requested week — is
deleted by the clearing step, although its date lies outside
`week_start .. week_start + 6`. -/
theorem C4_clear_window_counterexample :
    (generateWeeklyClearStep c4Db 0 true).schedules = [] ∧
    c4Db.schedules.map (fun r => r.scheduledDate) = [7] ∧
    (∀ r ∈ c4Db.schedules, r.isGeneratedByAi = true ∧
      r.status = "scheduled") ∧
    c4Db.schedules ≠ [] := by
  refine ⟨by decide, by decide, by decide, by decide⟩

/-- C4 amended: with `clear_existing` set, the clearing step deletes exactly
the AI-generated, still-`scheduled` blocks whose date lies within
`week_start` through `week_start + 7` inclusive — one day past the week end
— and leaves every other schedule block and every other table untouched. -/
theorem C4_clear_window_amended (db : DB) (weekStart : Int)
    (r : ScheduleRow) :
    (generateWeeklyClearStep db weekStart true).tasks = db.tasks ∧
    (generateWeeklyClearStep db weekStart true).timeEntries =
      db.timeEntries ∧
    (generateWeeklyClearStep db weekStart true).deps = db.deps ∧
    (generateWeeklyClearStep db weekStart true).schedules.count r =
      (if r.isGeneratedByAi = true ∧ r.status = "scheduled" ∧
          weekStart ≤ r.scheduledDate ∧ r.scheduledDate ≤ weekStart + 7
        then 0 else db.schedules.count r) := by
  refine ⟨rfl, rfl, rfl, ?_⟩
  show (db.schedules.filter _).count r = _
  rw [count_filter_ite]
  by_cases hc : r.isGeneratedByAi = true ∧ r.status = "scheduled" ∧
      weekStart ≤ r.scheduledDate ∧ r.scheduledDate ≤ weekStart + 7
  · rw [if_pos hc]
    obtain ⟨h1, h2, h3, h4⟩ := hc
    have h4' : r.scheduledDate ≤ weekStart + 6 + 1 := by omega
    simp [h1, h2, h3, h4']
  · rw [if_neg hc]
    have hfalse : (r.isGeneratedByAi &&
        decide (weekStart ≤ r.scheduledDate) &&
        decide (r.scheduledDate ≤ weekStart + 6 + 1) &&
        (r.status == "scheduled")) = false := by
      by_contra hb
      rw [Bool.not_eq_false] at hb
      simp only [Bool.and_eq_true, decide_eq_true_eq, beq_iff_eq] at hb
      exact hc ⟨hb.1.1.1, hb.2, hb.1.1.2, by omega⟩
    simp [hfalse]

/-- C5: the missing-credential failure never surfaces as the claimed 503.
`config.Settings` declares no `ANTHROPIC_API_KEY` field, so
`ClaudeClient.__init__` raises `AttributeError` inside
`service = ScheduleService()`, before the router's `try` block, in every
process environment; no upstream attempt is consumed (the route's status is
independent of the upstream outcomes) and `main.py`'s global handler turns
the failure into HTTP 500.  The 503-tagged exception of the `client`
property — the state the claim and the router's 503 branch describe — sits
behind a constructor that raises first whenever the key argument is
falsy. -/
theorem C5_missing_credential_surfaces_500 (env : Env)
    (outcomes : Nat → UpstreamOutcome) :
    claudeClientInit env none none = .error .attributeError ∧
    generateWeeklyRoute env outcomes = 500 ∧
    generateWeeklyRoute env outcomes ≠ 503 ∧
    (∀ outcomes' : Nat → UpstreamOutcome,
      generateWeeklyRoute env outcomes = generateWeeklyRoute env outcomes') ∧
    clientProperty none = .error { statusCode := some 503 } := by
  refine ⟨rfl, rfl, ?_, fun _ => rfl, rfl⟩
  intro h
  have h500 : generateWeeklyRoute env outcomes = 500 := rfl
  omega

theorem le_foldr_max (l : List Nat) (x : Nat) (hx : x ∈ l) :
    x ≤ l.foldr max 0 := by
  induction l with
  | nil => cases hx
  | cons a t ih =>
    rcases List.mem_cons.mp hx with rfl | hmem
    · exact le_max_left _ _
    · exact le_trans (ih hmem) (le_max_right _ _)

theorem freshTaskId_gt (db : DB) (t : Task) (ht : t ∈ db.tasks) :
    t.id < freshTaskId db := by
  have h1 : t.id ∈ db.tasks.map (fun u => u.id) := List.mem_map_of_mem _ ht
  have h2 := le_foldr_max _ _ h1
  unfold freshTaskId
  omega

theorem resolveTasks_ok_mem (db : DB) :
    ∀ (ids : List Nat) (ts : List Task), resolveTasks db ids = .ok ts →
      ∀ id ∈ ids, ∃ t ∈ db.tasks, t.id = id := by
  intro ids
  induction ids with
  | nil => intro ts h id hid; cases hid
  | cons i rest ih =>
    intro ts h id hid
    unfold resolveTasks at h
    cases hfind : getTaskById db i with
    | error e => rw [hfind] at h; cases h
    | ok t =>
      rw [hfind] at h
      rcases List.mem_cons.mp hid with rfl | hmem
      · unfold getTaskById at hfind
        cases hf2 : db.tasks.find? (fun u => u.id == id) with
        | none => rw [hf2] at hfind; cases hfind
        | some u =>
          have hmem2 := List.mem_of_find?_eq_some hf2
          have hid2 := List.find?_some hf2
          rw [beq_iff_eq] at hid2
          exact ⟨u, hmem2, hid2⟩
      · cases hrest : resolveTasks db rest with
        | error e => rw [hrest] at h; cases h
        | ok ts' => exact ih ts' hrest id hmem

theorem freshTaskId_not_mem (db : DB) (taskIds : List Nat) (ts : List Task)
    (hres : resolveTasks db taskIds = .ok ts) :
    freshTaskId db ∉ taskIds := by
  intro hmem
  obtain ⟨t, htmem, hid⟩ := resolveTasks_ok_mem db taskIds ts hres _ hmem
  have := freshTaskId_gt db t htmem
  omega

/-- C7: a successful merge bulk-reassigns every `TimeEntry` and every
`Schedule` row of the source tasks to the new task's id — each row moved
whole, none split, every other row untouched — and flips exactly the source
tasks' status to `archive`, while the one new task is created with status
`todo`. -/
theorem C7_merge_reassigns_and_archives (db : DB) (taskIds : List Nat)
    (merged : TaskInput) (ts : List Task)
    (hlen : 2 ≤ taskIds.length)
    (hres : resolveTasks db taskIds = .ok ts)
    (hproj : sameProject ts = true) :
    ∃ newId db',
      mergeTasks ⟨db, db⟩ taskIds merged = .ok ⟨db', db'⟩ ∧
      newId = freshTaskId db ∧ newId ∉ taskIds ∧
      db'.timeEntries = db.timeEntries.map (fun e =>
        if taskIds.contains e.taskId then { e with taskId := newId }
        else e) ∧
      db'.schedules = db.schedules.map (fun r =>
        if taskIds.contains r.taskId then { r with taskId := newId }
        else r) ∧
      db'.tasks.map (fun t => (t.id, t.status)) =
        db.tasks.map (fun t =>
          (t.id, if taskIds.contains t.id then "archive" else t.status)) ++
        [(newId, "todo")] := by
  have hnotin : freshTaskId db ∉ taskIds :=
    freshTaskId_not_mem db taskIds ts hres
  refine ⟨freshTaskId db, ?_⟩
  unfold mergeTasks
  dsimp only
  rw [if_neg (not_lt.mpr hlen), hres]
  dsimp only
  simp only [hproj, Bool.not_true, Bool.false_eq_true, if_false]
  dsimp only [Session.commitNow]
  refine ⟨_, rfl, trivial, hnotin, ?_, ?_, ?_⟩
  · dsimp only [mergeDependencies]
  · dsimp only [mergeDependencies]
  · dsimp only [mergeDependencies]
    rw [List.map_append, List.map_append, List.map_map, List.map_map]
    congr 1
    · apply List.map_congr_left
      intro t _
      by_cases hct : t.id ∈ taskIds
      · simp [Function.comp, hct]
      · simp [Function.comp, hct]
    · simp [Function.comp, hnotin]

/-- Witness for C7 at a concrete three-task database: tasks 1 and 2 are
merged, task 3 is untouched. -/
theorem C7_merge_reassigns_and_archives_witness :
    ∃ newId db',
      mergeTasks ⟨c7Db, c7Db⟩ [1, 2] { name := "M" } = .ok ⟨db', db'⟩ ∧
      newId ∉ ([1, 2] : List Nat) ∧
      db'.tasks.map (fun t => (t.id, t.status)) =
        c7Db.tasks.map (fun t =>
          (t.id, if ([1, 2] : List Nat).contains t.id then "archive"
            else t.status)) ++ [(newId, "todo")] := by
  obtain ⟨newId, db', h1, -, h3, -, -, h6⟩ :=
    C7_merge_reassigns_and_archives c7Db [1, 2] { name := "M" }
      [mkTask 1, mkTask 2] (by decide) (by decide) (by decide)
  exact ⟨newId, db', h1, h3, h6⟩

/-- C9: in the gathering step, an active task without an estimate is treated
as if its estimate were one hour — it is schedulable exactly when its logged
minutes total is under 60, and its reported remaining hours are one minus
its logged hours. -/
theorem C9_null_estimate_defaults_to_one_hour (db : DB) (t : Task)
    (hmem : t ∈ db.tasks)
    (hstatus : t.status = "todo" ∨ t.status = "doing" ∨ t.status = "waiting")
    (hest : t.estimatedHours = none)
    (hnodup : (db.tasks.map (fun u => u.id)).Nodup) :
    ((gatherSchedulableTasks db).any (fun st => st.id == t.id) = true ↔
      actualMinutes db t.id < 60) ∧
    ∀ st ∈ gatherSchedulableTasks db, st.id = t.id →
      st.estimatedHours = 1 ∧
      st.remainingHours = 1 - (actualMinutes db t.id : ℚ) / 60 := by
  have hstatusb : (t.status == "todo" || t.status == "doing" ||
      t.status == "waiting") = true := by
    rcases hstatus with h | h | h <;> simp [h]
  have hcond : max ((1 : ℚ) - (actualMinutes db t.id : ℚ) / 60) 0 ≤ 0 ↔
      ¬ actualMinutes db t.id < 60 := by
    rw [max_le_iff]
    constructor
    · rintro ⟨h1, -⟩ hlt
      have hc : ((actualMinutes db t.id : ℚ)) < 60 := by exact_mod_cast hlt
      have hd : (actualMinutes db t.id : ℚ) / 60 < 1 := by
        rw [div_lt_one (by norm_num)]
        exact hc
      linarith
    · intro hge
      have h60 : (60 : ℚ) ≤ (actualMinutes db t.id : ℚ) := by
        exact_mod_cast not_lt.mp hge
      have hone : (1 : ℚ) ≤ (actualMinutes db t.id : ℚ) / 60 := by
        rw [le_div_iff₀ (by norm_num : (0 : ℚ) < 60)]
        linarith
      exact ⟨by linarith, le_refl 0⟩
  have hback : ∀ st ∈ gatherSchedulableTasks db, st.id = t.id →
      actualMinutes db t.id < 60 ∧ st.estimatedHours = 1 ∧
        st.remainingHours =
          max ((1 : ℚ) - (actualMinutes db t.id : ℚ) / 60) 0 := by
    intro st hst hid
    obtain ⟨u, hu, hgu⟩ := List.mem_filterMap.mp hst
    have humem : u ∈ db.tasks := (List.mem_filter.mp hu).1
    dsimp only at hgu
    split at hgu
    · cases hgu
    · rename_i hnle
      have hstv := (Option.some.injEq _ _).mp hgu
      have huid : u.id = t.id := by rw [← hid, ← hstv]
      have hut : u = t :=
        List.inj_on_of_nodup_map hnodup humem hmem huid
      subst hut
      rw [hest] at hnle hstv
      dsimp only at hnle hstv
      refine ⟨by_contra fun hc => hnle (hcond.mpr hc), ?_, ?_⟩
      · rw [← hstv]
      · rw [← hstv]
  constructor
  · constructor
    · intro hany
      rw [List.any_eq_true] at hany
      obtain ⟨st, hst, hid⟩ := hany
      rw [beq_iff_eq] at hid
      exact (hback st hst hid).1
    · intro hlt
      rw [List.any_eq_true]
      have hx : ({ id := t.id
                   estimatedHours := 1
                   actualHours := (actualMinutes db t.id : ℚ) / 60
                   remainingHours :=
                     max ((1 : ℚ) - (actualMinutes db t.id : ℚ) / 60) 0 } :
          SchedulableTask) ∈ gatherSchedulableTasks db := by
        apply List.mem_filterMap.mpr
        refine ⟨t, List.mem_filter.mpr ⟨hmem, hstatusb⟩, ?_⟩
        dsimp only
        rw [hest]
        dsimp only
        rw [if_neg (fun hle => (hcond.mp hle) hlt)]
      exact ⟨_, hx, by simp⟩
  · intro st hst hid
    obtain ⟨-, h1, h2⟩ := hback st hst hid
    refine ⟨h1, ?_⟩
    rw [h2, max_eq_left]
    have hc : ((actualMinutes db t.id : ℚ)) < 60 := by
      exact_mod_cast (hback st hst hid).1
    have hd : (actualMinutes db t.id : ℚ) / 60 < 1 := by
      rw [div_lt_one (by norm_num)]
      exact hc
    linarith

/-- Witness for C9: task 1 has no estimate and 30 logged minutes, so it is
schedulable. -/
theorem C9_null_estimate_defaults_to_one_hour_witness :
    (gatherSchedulableTasks c9Db).any (fun st => st.id == 1) = true ∧
    actualMinutes c9Db 1 < 60 := by
  have h := C9_null_estimate_defaults_to_one_hour c9Db (mkTask 1)
    (by decide) (Or.inl rfl) rfl (by decide)
  have hlt : actualMinutes c9Db 1 < 60 := by decide
  exact ⟨h.1.mpr hlt, hlt⟩

/-- C6 counterexample: a syntactically valid JSON array holding one fully
valid entry and one bare number — an entry with no `task_id` field, which
the claim says is dropped with a warning — makes the whole parse raise
`AttributeError` and nothing is persisted, although the same valid entry
parses fine on its own.  Likewise an entry whose `task_id` is a JSON list —
an unknown id, which the claim says is dropped — raises `TypeError` from
the set-membership test; and an entry naming the impossible calendar day
2025-02-30 is dropped because `fromisoformat` raises a caught
`ValueError`. -/
theorem C6_parse_counterexample :
    parseScheduleResponse c6Response c6Tasks = .error .attributeError ∧
    parseScheduleResponse (.arr [c6GoodItem]) c6Tasks =
      .ok (some [{ taskId := 1
                   date := 753312
                   startTime := none
                   endTime := none
                   allocatedHours := 3 }]) ∧
    parseScheduleResponse
        (.arr [.obj [("task_id", .arr [.num 1])]]) c6Tasks =
      .error .typeError ∧
    parseScheduleResponse
        (.arr [.obj [("task_id", .num 1), ("date", .str "2025-02-30"),
          ("allocated_hours", .num 3)]]) c6Tasks =
      .ok (some []) := by
  refine ⟨?_, ?_, ?_, ?_⟩
  · with_unfolding_all rfl
  · with_unfolding_all rfl
  · with_unfolding_all rfl
  · with_unfolding_all rfl

theorem matchTaskId_hashable (ids : List Nat) (j : Option Json)
    (h : (match j with
      | some (.arr _) => false
      | some (.obj _) => false
      | _ => true) = true) :
    ∃ r, matchTaskId ids j = .ok r := by
  cases j with
  | none => exact ⟨none, rfl⟩
  | some v =>
    cases v with
    | arr xs => simp at h
    | obj fs => simp at h
    | null => exact ⟨none, rfl⟩
    | bool b => exact ⟨_, rfl⟩
    | num q => exact ⟨_, rfl⟩
    | str s => exact ⟨none, rfl⟩

theorem parseEntryStep_wellShaped (ids : List Nat) (item : Json)
    (h : wellShapedItem item = true) :
    (parseEntryStep ids item = match keptEntry ids item with
      | some e => .ok (.kept e)
      | none => .ok .dropped) ∧
    (keptEntry ids item = none ↔ claimDropped ids item = true) ∧
    ∀ e, keptEntry ids item = some e →
      wellShapedTime e.startTime ∧ wellShapedTime e.endTime := by
  cases item with
  | null => simp [wellShapedItem] at h
  | bool b => simp [wellShapedItem] at h
  | num q => simp [wellShapedItem] at h
  | str s => simp [wellShapedItem] at h
  | arr xs => simp [wellShapedItem] at h
  | obj fields =>
    simp only [wellShapedItem, Bool.and_eq_true] at h
    obtain ⟨⟨⟨⟨htid, hdate⟩, halloc⟩, hstart⟩, hend⟩ := h
    obtain ⟨r, hms⟩ := matchTaskId_hashable ids
      (lookupField fields "task_id") htid
    cases r with
    | none =>
      refine ⟨?_, ?_, ?_⟩
      · simp [parseEntryStep, keptEntry, hms]
      · simp [keptEntry, parseEntryStep, claimDropped, hms]
      · intro e he
        simp [keptEntry, parseEntryStep, hms] at he
    | some tid =>
      cases hd : lookupField fields "date" with
      | none =>
        refine ⟨?_, ?_, ?_⟩
        · simp [parseEntryStep, keptEntry, hms, hd]
        · simp [keptEntry, parseEntryStep, claimDropped, hms, hd]
        · intro e he
          simp [keptEntry, parseEntryStep, hms, hd] at he
      | some dj =>
        rw [hd] at hdate
        cases dj with
        | str s =>
          cases hp : parseIsoDate s with
          | none =>
            refine ⟨?_, ?_, ?_⟩
            · simp [parseEntryStep, keptEntry, hms, hd, hp]
            · simp [keptEntry, parseEntryStep, claimDropped, hms, hd, hp]
            · intro e he
              simp [keptEntry, parseEntryStep, hms, hd, hp] at he
          | some date =>
            cases ha : lookupField fields "allocated_hours" with
            | none =>
              refine ⟨?_, ?_, ?_⟩
              · simp [parseEntryStep, keptEntry, hms, hd, hp, ha]
              · simp [keptEntry, parseEntryStep, claimDropped, hms, hd, hp,
                  ha]
              · intro e he
                simp [keptEntry, parseEntryStep, hms, hd, hp, ha] at he
            | some aj =>
              rw [ha] at halloc
              cases aj with
              | num q =>
                refine ⟨?_, ?_, ?_⟩
                · simp [parseEntryStep, keptEntry, hms, hd, hp, ha,
                    decimalOfJson]
                · simp [keptEntry, parseEntryStep, claimDropped, hms, hd, hp,
                    ha, decimalOfJson]
                · intro e he
                  simp [keptEntry, parseEntryStep, hms, hd, hp, ha,
                    decimalOfJson] at he
                  rw [← he]
                  exact ⟨hstart, hend⟩
              | null => simp at halloc
              | bool b => simp at halloc
              | str s2 => simp at halloc
              | arr xs => simp at halloc
              | obj fs => simp at halloc
        | null => simp at hdate
        | bool b => simp at hdate
        | num q => simp at hdate
        | arr xs => simp at hdate
        | obj fs => simp at hdate

theorem createRowsLoop_ok :
    ∀ entries : List ParsedEntry,
      (∀ e ∈ entries, wellShapedTime e.startTime ∧
        wellShapedTime e.endTime) →
      createRowsLoop entries = .ok (entries.map rowOfEntry) := by
  intro entries
  induction entries with
  | nil => intro _; rfl
  | cons e rest ih =>
    intro h
    have he := h e (List.mem_cons_self e rest)
    unfold createRowsLoop
    cases hs : parseTimeString e.startTime with
    | error err =>
      have := he.1
      unfold wellShapedTime at this
      rw [hs] at this
      simp at this
    | ok st =>
      cases hen : parseTimeString e.endTime with
      | error err =>
        have := he.2
        unfold wellShapedTime at this
        rw [hen] at this
        simp at this
      | ok et =>
        rw [ih (fun x hx => h x (List.mem_cons_of_mem e hx))]
        simp [Except.map, rowOfEntry, timeValue, hs, hen]

theorem parseEntriesLoop_wellShaped (ids : List Nat) :
    ∀ items : List Json, (∀ it ∈ items, wellShapedItem it = true) →
      parseEntriesLoop ids items =
        .ok (some (items.filterMap (keptEntry ids))) := by
  intro items
  induction items with
  | nil => intro _; rfl
  | cons it rest ih =>
    intro h
    have hstep := (parseEntryStep_wellShaped ids it
      (h it (List.mem_cons_self it rest))).1
    have hrest := ih (fun x hx => h x (List.mem_cons_of_mem it hx))
    unfold parseEntriesLoop
    cases hk : keptEntry ids it with
    | none =>
      rw [hk] at hstep
      rw [hstep, hrest]
      simp [List.filterMap_cons, hk]
    | some e =>
      rw [hk] at hstep
      rw [hstep, hrest]
      simp [Except.map, List.filterMap_cons, hk]

/-- C6 amended: over a decoded JSON array whose entries are objects with a
hashable (non-list, non-object) or absent `task_id`, a zero-padded
`YYYY-MM-DD`-shaped or absent `date`, a numeric-or-absent `allocated_hours`
and handleable optional time fields, the parse never raises: it drops —
with a logged warning — exactly the entries with an unknown or missing
`task_id`, a missing `date`, a date naming no real calendar day (which
`fromisoformat` rejects), or a missing `allocated_hours`, and every
remaining entry is parsed and persisted as an AI-generated `scheduled`
block.  (Outside these shapes the call raises instead of dropping: a
non-object entry raises `AttributeError`, a list- or object-valued
`task_id` raises `TypeError` from the set-membership test, a non-string
`date` raises `TypeError`, and an unconvertible `allocated_hours` raises
`decimal.InvalidOperation` — see the counterexample.) -/
theorem C6_parse_drop_amended (tasks : List SchedulableTask)
    (items : List Json) (db : DB)
    (hshape : ∀ it ∈ items, wellShapedItem it = true) :
    ∃ parsed, parseScheduleResponse (.arr items) tasks = .ok (some parsed) ∧
      parsed = items.filterMap (keptEntry (tasks.map (fun t => t.id))) ∧
      (∀ it ∈ items, keptEntry (tasks.map (fun t => t.id)) it = none ↔
        claimDropped (tasks.map (fun t => t.id)) it = true) ∧
      createScheduleRecords db parsed =
        .ok { db with
          schedules := db.schedules ++ parsed.map rowOfEntry } := by
  refine ⟨items.filterMap (keptEntry (tasks.map (fun t => t.id))), ?_, rfl,
    ?_, ?_⟩
  · exact parseEntriesLoop_wellShaped _ items hshape
  · intro it hit
    exact (parseEntryStep_wellShaped _ it (hshape it hit)).2.1
  · unfold createScheduleRecords
    rw [createRowsLoop_ok]
    · rfl
    · intro e he
      obtain ⟨it, hit, hke⟩ := List.mem_filterMap.mp he
      exact (parseEntryStep_wellShaped _ it (hshape it hit)).2.2 e hke

/-- Witness for C6 at a two-entry array: the valid entry for task 1 is kept
and persisted, the entry with the unknown task id 9999 is dropped. -/
theorem C6_parse_drop_amended_witness :
    ∃ parsed, parseScheduleResponse
        (.arr [c6GoodItem, .obj [("task_id", .num 9999)]]) c6Tasks =
      .ok (some parsed) ∧
      parsed = [c6GoodItem, .obj [("task_id", .num 9999)]].filterMap
        (keptEntry (c6Tasks.map (fun t => t.id))) ∧
      createScheduleRecords
          { tasks := [], timeEntries := [], schedules := [], deps := [] }
          parsed =
        .ok { tasks := []
              timeEntries := []
              schedules := parsed.map rowOfEntry
              deps := [] } := by
  obtain ⟨parsed, h1, h2, -, h4⟩ := C6_parse_drop_amended c6Tasks
    [c6GoodItem, .obj [("task_id", .num 9999)]]
    { tasks := [], timeEntries := [], schedules := [], deps := [] }
    (by decide)
  exact ⟨parsed, h1, h2, h4⟩

end ConcreteEvaluation

end App
